import Mathlib

/-!
Verification development for the Hofer / ALDI multi-country checker.

The repository is a small Node/Express service (`index.js`, plus four earlier
iterations of the same script shipped alongside it) that fetches retailer
promotion-listing pages, discovers date-stamped promotion sub-pages, and
extracts an "items found" count from page text using localized keywords.

This file gives a shallow embedding of the pure computational core of that
code in Lean: string/regex scanning is modelled as executable functions on
`List Char`, external I/O (HTTP fetches, Playwright browser sessions) is
modelled by passing the responses of the environment as explicit values, and
JavaScript-specific behaviours (`parseInt`, `String.prototype.trim`, regex
lookarounds, `Set` insertion order) are modelled explicitly and documented at
each definition.  Definitions are named after the source functions they embed.
-/

set_option maxRecDepth 4000

namespace Hofer

/-! ## Character classes and basic scanning helpers -/

/-- Characters treated as whitespace by JavaScript's `\s`, `String.prototype.trim`
and friends: tab through carriage return, space, NBSP, ogham space mark, the
U+2000–U+200A range, line/paragraph separator, narrow NBSP, medium mathematical
space, ideographic space and BOM. -/
def jsWhitespace (c : Char) : Bool :=
  let n := c.toNat
  (9 ≤ n && n ≤ 13) || n == 32 || n == 160 || n == 5760 ||
    (8192 ≤ n && n ≤ 8202) || n == 8232 || n == 8233 || n == 8239 ||
    n == 8287 || n == 12288 || n == 65279

/-- JavaScript `\w` word characters `[A-Za-z0-9_]`, used by the `\b` boundary. -/
def isWordChar (c : Char) : Bool := c.isAlphanum || c = '_'

/-- ASCII lowercasing, modelling `String.prototype.toLowerCase` on the ASCII
strings this repository compares (keywords, URL paths, markup literals). -/
def lowerChar (c : Char) : Char := c.toLower

/-- Literal (case-sensitive) prefix test: `startsWith` / anchored literal regex. -/
def litStart (pat l : List Char) : Bool := decide (l.take pat.length = pat)

/-- Case-insensitive prefix test, modelling an `i`-flagged literal regex match
at a fixed position. -/
def ciStart (pat l : List Char) : Bool :=
  decide ((l.take pat.length).map lowerChar = pat.map lowerChar)

/-- Literal substring test, modelling `String.prototype.includes`. -/
def containsSub : List Char → List Char → Bool
  | [], pat => litStart pat []
  | c :: t, pat => litStart pat (c :: t) || containsSub t pat

/-- Case-insensitive substring test, modelling
`a.toLowerCase().includes(b.toLowerCase())`. -/
def ciContains : List Char → List Char → Bool
  | [], pat => ciStart pat []
  | c :: t, pat => ciStart pat (c :: t) || ciContains t pat

/-- Splits a list at the first occurrence of the literal pattern `pat`,
returning the part before it and the part after it; `none` when `pat` does not
occur.  Models non-greedy scanning up to a literal, e.g. `(.*?)` before a
closing quote. -/
def splitAtSub (pat : List Char) : List Char → Option (List Char × List Char)
  | [] => if litStart pat [] then some ([], []) else none
  | c :: t =>
    if litStart pat (c :: t) then some ([], (c :: t).drop pat.length)
    else
      match splitAtSub pat t with
      | some (pre, post) => some (c :: pre, post)
      | none => none

/-- Case-insensitive variant of `splitAtSub`, for `i`-flagged literals such as
the closing `</a>` tag. -/
def splitAtSubCI (pat : List Char) : List Char → Option (List Char × List Char)
  | [] => if ciStart pat [] then some ([], []) else none
  | c :: t =>
    if ciStart pat (c :: t) then some ([], (c :: t).drop pat.length)
    else
      match splitAtSubCI pat t with
      | some (pre, post) => some (c :: pre, post)
      | none => none

/-- JavaScript `String.prototype.trim`: strip leading and trailing whitespace. -/
def jsTrim (l : List Char) : List Char :=
  ((l.dropWhile jsWhitespace).reverse.dropWhile jsWhitespace).reverse

/-- Collapses every maximal run of whitespace to a single space, modelling
`replace(/\s+/g, ' ')`.  The boolean records whether the previous character
belonged to a whitespace run already replaced. -/
def collapseWsAux : Bool → List Char → List Char
  | _, [] => []
  | prevWs, c :: t =>
    if jsWhitespace c then
      if prevWs then collapseWsAux true t else ' ' :: collapseWsAux true t
    else c :: collapseWsAux false t

/-- Text normalization at the top of `extractCountFromTextImproved`
(index.js line 141): replace NBSP by a plain space, collapse every whitespace
run to a single space, then trim. -/
def normalizeWsText (l : List Char) : List Char :=
  jsTrim (collapseWsAux false (l.map (fun c => if c = '\u00A0' then ' ' else c)))

/-! ## Number normalizer (`normalizeNumberString`, index.js lines 58–69) -/

/-- First step of `normalizeNumberString`: NBSP and narrow NBSP become spaces. -/
def nbspToSpace2 (c : Char) : Char :=
  if c = '\u00A0' ∨ c = '\u202F' then ' ' else c

/-- The separator class `[\.\, ]` of the thousands-separator removal regex. -/
def isThouSep (c : Char) : Bool := c = '.' || c = ',' || c = ' '

/-- The lookahead `(?=\d{3}\b)`: the next three characters are digits and are
followed by a word boundary (end of string or a non-word character). -/
def threeDigitsBoundary (l : List Char) : Bool :=
  match l with
  | a :: b :: c :: rest =>
    a.isDigit && b.isDigit && c.isDigit &&
      (match rest with
       | [] => true
       | d :: _ => !isWordChar d)
  | _ => false

/-- Global replacement of `/(?<=\d)[\.\, ](?=\d{3}\b)/` by the empty string
(index.js line 63).  The match is one separator character; both lookarounds
inspect the original string, so `prev` carries the original previous character
whether or not it was removed. -/
def rtAux : Option Char → List Char → List Char
  | _, [] => []
  | prev, c :: t =>
    if isThouSep c && (match prev with | some p => p.isDigit | none => false)
        && threeDigitsBoundary t then
      rtAux (some c) t
    else c :: rtAux (some c) t

/-- The character filter `replace(/[^\d\-]/g, '')` keeps digits and minus. -/
def keepDigitMinus (c : Char) : Bool := c.isDigit || c = '-'

/-- Value of a list of decimal digit characters. -/
def digitsToNat (l : List Char) : Nat :=
  l.foldl (fun n c => 10 * n + (c.toNat - 48)) 0

/-- Value of the maximal leading digit run, or `none` when there is none. -/
def leadDigitsVal (l : List Char) : Option Nat :=
  match l.takeWhile Char.isDigit with
  | [] => none
  | ds => some (digitsToNat ds)

/-- JavaScript `parseInt(s, 10)` restricted to strings of digits and `-`, the
only shape reaching it in `normalizeNumberString`: an optional leading minus
sign followed by the longest digit prefix; `NaN` (here `none`) when no digit
follows. -/
def jsParseInt : List Char → Option Int
  | [] => none
  | c :: t =>
    if c = '-' then (leadDigitsVal t).map (fun n => -(Int.ofNat n))
    else (leadDigitsVal (c :: t)).map Int.ofNat

/-- Core of `normalizeNumberString` (index.js lines 58–69) on a character
list: empty input signals "not a number" (`!numStr`), then NBSP/narrow-NBSP
become spaces, thousands separators are removed, all non-digit non-minus
characters are stripped, and the remainder is parsed. -/
def normalizeNumChars (l : List Char) : Option Int :=
  if l = [] then none
  else
    let cleanedSpaces := l.map nbspToSpace2
    let removedThousands := rtAux none cleanedSpaces
    let digitsOnly := removedThousands.filter keepDigitMinus
    if digitsOnly = [] then none else jsParseInt digitsOnly

/-- `normalizeNumberString` from index.js lines 58–69. -/
def normalizeNumberString (numStr : String) : Option Int :=
  normalizeNumChars numStr.toList

/-! ## Count extractor (`extractCountFromTextImproved`, index.js lines 139–198)

The number-token pattern throughout is `\d{1,6}[\d\.,  ]*`.  Because
the continuation class contains the digits, a match starting at a digit is a
nonempty prefix of the maximal run of token characters beginning there, and the
greedy engine prefers the longest such prefix that lets the rest of the regex
match.  The helpers below implement exactly that backtracking order. -/

/-- The continuation class `[\d\.,  ]` of the number-token pattern. -/
def isNumCont (c : Char) : Bool :=
  c.isDigit || c = '.' || c = ',' || c = ' ' || c = ' '

/-- The gap class `[^\d\n\r]` used between number and keyword. -/
def gapChar (c : Char) : Bool := !c.isDigit && !(c = '\n') && !(c = '\r')

/-- Tail of re1 after the captured number: `[^\d\n\r]{0,40}` then the keyword,
case-insensitively.  Success for some gap length is all that matters for the
overall match, so the greedy order of gap lengths is irrelevant here. -/
def gapThenKw (rest kw : List Char) : Bool :=
  (List.range (min 40 (rest.takeWhile gapChar).length + 1)).any
    (fun g => ciStart kw (rest.drop g))

/-- Attempt of re1 `(\d{1,6}[\d\.,  ]*)[^\d\n\r]{0,40}kw` at a fixed
position: the position must hold a digit; captures are tried from the longest
prefix of the maximal token run down to length one, and the first whose
continuation matches wins (greedy with backtracking). -/
def re1At (l kw : List Char) : Option (List Char) :=
  match l with
  | [] => none
  | c :: _ =>
    if c.isDigit then
      let R := l.takeWhile isNumCont
      (List.range R.length).findSome? (fun i =>
        if gapThenKw (l.drop (R.length - i)) kw then some (R.take (R.length - i))
        else none)
    else none

/-- Leftmost match of re1: positions are tried left to right. -/
def re1Match : List Char → List Char → Option (List Char)
  | [], _ => none
  | c :: t, kw =>
    match re1At (c :: t) kw with
    | some cap => some cap
    | none => re1Match t kw

/-- Attempt of re2 `kw[^\d\n\r]{0,40}(\d{1,6}[\d\.,  ]*)` at a fixed
position.  Gap characters exclude digits, so the only viable gap is the whole
non-digit run after the keyword; it must be at most 40 long and be followed by
a digit, where the greedy capture is the maximal token run. -/
def re2At (l kw : List Char) : Option (List Char) :=
  if ciStart kw l then
    let rest := l.drop kw.length
    let g := (rest.takeWhile gapChar).length
    if g ≤ 40 then
      match rest.drop g with
      | c :: cs => if c.isDigit then some ((c :: cs).takeWhile isNumCont) else none
      | [] => none
    else none
  else none

/-- Leftmost match of re2. -/
def re2Match : List Char → List Char → Option (List Char)
  | [], _ => none
  | c :: t, kw =>
    match re2At (c :: t) kw with
    | some cap => some cap
    | none => re2Match t kw

/-- First phase of `extractCountFromTextImproved` (lines 144–158): for each
keyword in order, skipping empty ones, try re1 then re2; the first captured
token that normalizes to a number is returned. -/
def tryKeywordPatterns (normalized : List Char) : List String → Option Int
  | [] => none
  | kw :: rest =>
    if kw = "" then tryKeywordPatterns normalized rest
    else
      match (re1Match normalized kw.toList).bind normalizeNumChars with
      | some v => some v
      | none =>
        match (re2Match normalized kw.toList).bind normalizeNumChars with
        | some v => some v
        | none => tryKeywordPatterns normalized rest

/-- First match of the bare number-token pattern in a line
(`match(/(\d{1,6}[\d\.,  ]*)/)`). -/
def firstNumToken : List Char → Option (List Char)
  | [] => none
  | c :: cs =>
    if c.isDigit then some ((c :: cs).takeWhile isNumCont) else firstNumToken cs

/-- Splitting on `/\r?\n/`: a `\r\n` pair or a lone `\n` separates lines; a
lone `\r` does not (the regex requires the `\n`). -/
def splitLinesAux (cur : List Char) : List Char → List (List Char)
  | [] => [cur.reverse]
  | '\r' :: '\n' :: rest => cur.reverse :: splitLinesAux [] rest
  | '\n' :: rest => cur.reverse :: splitLinesAux [] rest
  | c :: rest => splitLinesAux (c :: cur) rest

/-- Lines of the normalized text: split, trim each, drop empties
(index.js line 161, `.filter(Boolean)`). -/
def linesOf (normalized : List Char) : List (List Char) :=
  ((splitLinesAux [] normalized).map jsTrim).filter (fun l => decide (l ≠ []))

/-- Body of the line-scanning phase for one line and one keyword (lines
163–187): when the line contains the keyword case-insensitively, the first
number on the same line is tried, then the previous line's, then the next
line's; a token whose normalization fails falls through to the next source. -/
def lineHit (prevLine : Option (List Char)) (li : List Char)
    (nextLine : Option (List Char)) (kw : List Char) : Option Int :=
  if ciContains li kw then
    match (firstNumToken li).bind normalizeNumChars with
    | some v => some v
    | none =>
      match prevLine.bind (fun pl => (firstNumToken pl).bind normalizeNumChars) with
      | some v => some v
      | none => nextLine.bind (fun nl => (firstNumToken nl).bind normalizeNumChars)
  else none

/-- The nested index loops of lines 162–189, re-expressed with the previous
line carried along: at index `i`, `prev` is `lines[i-1]` (absent when `i = 0`)
and `rest.head?` is `lines[i+1]` (absent at the last line). -/
def lineScanAux (kws : List String) : Option (List Char) → List (List Char) → Option Int
  | _, [] => none
  | prev, li :: rest =>
    match kws.findSome? (fun kw => lineHit prev li rest.head? kw.toList) with
    | some v => some v
    | none => lineScanAux kws (some li) rest

/-- All matches of the number-token pattern (`matchAll`, line 192): matches are
non-overlapping and scanning resumes right after each match. -/
def numTokenMatches : List Char → List (List Char)
  | [] => []
  | c :: cs =>
    if c.isDigit then
      (c :: cs.takeWhile isNumCont) :: numTokenMatches (cs.drop (cs.takeWhile isNumCont).length)
    else numTokenMatches cs
termination_by l => l.length
decreasing_by
  · simp only [List.length_drop, List.length_cons]
    omega
  · simp

/-- `Math.max` over a list, `none` when empty. -/
def listMaxInt : List Int → Option Int
  | [] => none
  | x :: xs => some (xs.foldl max x)

/-- Last-resort phase (lines 191–196): normalize every number token in the
block and return the maximum if it exceeds 1. -/
def lastResort (normalized : List Char) : Option Int :=
  match listMaxInt ((numTokenMatches normalized).filterMap normalizeNumChars) with
  | none => none
  | some mx => if mx > 1 then some mx else none

/-- `extractCountFromTextImproved` from index.js lines 139–198: keyword
patterns first, then the line scan, then the last resort. -/
def extractCountFromTextImproved (text : String) (keywords : List String) : Option Int :=
  if text = "" then none
  else
    let normalized := normalizeWsText text.toList
    match tryKeywordPatterns normalized keywords with
    | some v => some v
    | none =>
      match lineScanAux keywords none (linesOf normalized) with
      | some v => some v
      | none => lastResort normalized

/-! ## The part_002 iteration: heading extractor and sanity filter

The repository ships earlier iterations of the script; the one in
`src/unnamed/part_002` is the only one that bounds accepted counts.  Its
`extractCountFromHeadingText` (part_002 lines 334–359) differs from the
extractor above: the gap between number and keyword is `\s*` (whitespace only,
unbounded), and the fallback pattern is `(\d{1,4}[\,\.\d\s]*)`.  Its
`normalizeNumberString` (part_002 lines 288–297) additionally trims before
removing thousands separators. -/

/-- `normalizeNumberString` of part_002 on a character list: NBSP map, trim,
thousands-separator removal, digit filter, parse. -/
def p2normalizeNumChars (l : List Char) : Option Int :=
  if l = [] then none
  else
    let s := jsTrim (l.map nbspToSpace2)
    let cleaned := rtAux none s
    let digitsOnly := cleaned.filter keepDigitMinus
    if digitsOnly = [] then none else jsParseInt digitsOnly

/-- Tail of the part_002 re1 after the capture: `\s*` then the keyword. -/
def wsThenKw (rest kw : List Char) : Bool :=
  (List.range ((rest.takeWhile jsWhitespace).length + 1)).any
    (fun g => ciStart kw (rest.drop g))

/-- Attempt of part_002 re1 `(\d{1,5}[\d\.,  ]*)\s*kw` at a fixed
position; same greedy capture order as `re1At`. -/
def p2re1At (l kw : List Char) : Option (List Char) :=
  match l with
  | [] => none
  | c :: _ =>
    if c.isDigit then
      let R := l.takeWhile isNumCont
      (List.range R.length).findSome? (fun i =>
        if wsThenKw (l.drop (R.length - i)) kw then some (R.take (R.length - i))
        else none)
    else none

/-- Leftmost match of part_002 re1. -/
def p2re1Match : List Char → List Char → Option (List Char)
  | [], _ => none
  | c :: t, kw =>
    match p2re1At (c :: t) kw with
    | some cap => some cap
    | none => p2re1Match t kw

/-- Attempt of part_002 re2 `kw\s*(\d{1,5}[\d\.,  ]*)`: whitespace
after the keyword cannot contain digits, so the capture begins at the first
character after the whitespace run, which must be a digit. -/
def p2re2At (l kw : List Char) : Option (List Char) :=
  if ciStart kw l then
    let rest := l.drop kw.length
    let g := (rest.takeWhile jsWhitespace).length
    match rest.drop g with
    | c :: cs => if c.isDigit then some ((c :: cs).takeWhile isNumCont) else none
    | [] => none
  else none

/-- Leftmost match of part_002 re2. -/
def p2re2Match : List Char → List Char → Option (List Char)
  | [], _ => none
  | c :: t, kw =>
    match p2re2At (c :: t) kw with
    | some cap => some cap
    | none => p2re2Match t kw

/-- Keyword loop of `extractCountFromHeadingText` (part_002 lines 338–351). -/
def p2TryKws (cleaned : List Char) : List String → Option Int
  | [] => none
  | kw :: rest =>
    match (p2re1Match cleaned kw.toList).bind p2normalizeNumChars with
    | some v => some v
    | none =>
      match (p2re2Match cleaned kw.toList).bind p2normalizeNumChars with
      | some v => some v
      | none => p2TryKws cleaned rest

/-- Continuation class `[\,\.\d\s]` of the part_002 fallback pattern. -/
def fbCont (c : Char) : Bool := c.isDigit || c = ',' || c = '.' || jsWhitespace c

/-- First match of the fallback pattern `(\d{1,4}[\,\.\d\s]*)`. -/
def p2FbToken : List Char → Option (List Char)
  | [] => none
  | c :: cs =>
    if c.isDigit then some ((c :: cs).takeWhile fbCont) else p2FbToken cs

/-- `extractCountFromHeadingText` from part_002 lines 334–359: NBSP map and
trim, keyword patterns, then the small-number fallback. -/
def extractCountFromHeadingText (text : String) (keywords : List String) : Option Int :=
  if text = "" then none
  else
    let cleaned := jsTrim (text.toList.map (fun c => if c = ' ' then ' ' else c))
    match p2TryKws cleaned keywords with
    | some v => some v
    | none => (p2FbToken cleaned).bind p2normalizeNumChars

/-- The `sanity` clamp of part_002 lines 466–474: `null` stays `null`, and a
number is accepted only when `0 ≤ v ≤ 5000` (the non-number and non-finite
cases of the source cannot arise for an `Option Int` value). -/
def sanity (v : Option Int) : Option Int :=
  match v with
  | none => none
  | some x => if x < 0 then none else if x > 5000 then none else some x

/-- The headline-extraction step of the part_002 per-page pipeline (part_002
lines 485–487): the heading extractor's result passed through `sanity`. -/
def p2AcceptedCount (text : String) (keywords : List String) : Option Int :=
  sanity (extractCountFromHeadingText text keywords)

/-! ## URL model

The source uses the platform `URL` constructor.  The model below covers the
reference shapes this repository actually resolves: root-relative paths
(leading `/`) are resolved against the origin of the base, and references
carrying their own scheme are returned unchanged; any other relative shape is
resolved as `origin/href`.  Protocol-relative (`//host`) and path-relative
(`a/b`) references, which the WHATWG algorithm treats differently, do not
occur in the configured listing paths or in the claims below. -/

/-- Origin (`scheme://host[:port]`) of a URL string: everything up to the
first `/` after the `://`.  Returns the input unchanged when no `://` occurs. -/
def urlOrigin (base : String) : String :=
  match splitAtSub "://".toList base.toList with
  | some (scheme, rest) =>
    String.mk (scheme ++ "://".toList ++ rest.takeWhile (fun c => decide (c ≠ '/')))
  | none => base

/-- Hostname of a URL string (`new URL(base).hostname`): the part after `://`
up to the next `/` or `:`. -/
def urlHostname (base : String) : String :=
  match splitAtSub "://".toList base.toList with
  | some (_, rest) =>
    String.mk (rest.takeWhile (fun c => decide (c ≠ '/') && decide (c ≠ ':')))
  | none => base

/-- Model of `new URL(href, base).toString()` for the shapes described above. -/
def newUrlToString (href base : String) : String :=
  if litStart "/".toList href.toList then urlOrigin base ++ href
  else if containsSub href.toList "://".toList then href
  else urlOrigin base ++ "/" ++ href

/-- The resolution step shared by the collectors
(`href.startsWith('http') ? href : new URL(href, base).toString()`): a
reference merely starting with the four characters `http` is kept verbatim. -/
def resolveHref (href base : String) : String :=
  if litStart "http".toList href.toList then href else newUrlToString href base

/-- Canonicalization `abs.split('#')[0].split('?')[0]`: the part before the
first `#`, then the part of that before the first `?`. -/
def stripFragQuery (s : String) : String :=
  String.mk ((s.toList.takeWhile (fun c => decide (c ≠ '#'))).takeWhile
    (fun c => decide (c ≠ '?')))

/-- JavaScript `Set` insertion: append when absent, modelling iteration order
`Array.from(set)`. -/
def addUnique (set : List String) (x : String) : List String :=
  if x ∈ set then set else set ++ [x]

/-- Listing URL of a country (`new URL(c.listingPath || '/', c.base)`,
index.js line 289). -/
def mkListingUrl (base listingPath : String) : String :=
  newUrlToString (if listingPath = "" then "/" else listingPath) base

/-! ## Date-page pattern `/\/d\.\d{2}-\d{2}-\d{4}\.html/i` -/

/-- The 18-character date-page pattern matched at the head of a list, with
arbitrary continuation: `/d.` (letter case-insensitive), two digits, `-`, two
digits, `-`, four digits, `.html`. -/
def dateAtStart (l : List Char) : Bool :=
  match l with
  | s :: d :: dot :: a :: b :: h1 :: c2 :: d2 :: h2 :: y1 :: y2 :: y3 :: y4 :: dot2 :: rest =>
    decide (s = '/') && decide (lowerChar d = 'd') && decide (dot = '.') &&
      a.isDigit && b.isDigit && decide (h1 = '-') && c2.isDigit && d2.isDigit &&
      decide (h2 = '-') && y1.isDigit && y2.isDigit && y3.isDigit && y4.isDigit &&
      decide (dot2 = '.') && ciStart "html".toList rest
  | _ => false

/-- Unanchored test of the date-page pattern (`.test(href)`). -/
def hasDateSub : List Char → Bool
  | [] => false
  | c :: t => dateAtStart (c :: t) || hasDateSub t

/-- The date-page pattern as an exact suffix: the final `.html` ends the list. -/
def dateSuffixEnd (P : List Char) : Bool :=
  18 ≤ P.length &&
    (match P.drop (P.length - 18) with
     | s :: d :: dot :: a :: b :: h1 :: c2 :: d2 :: h2 :: y1 :: y2 :: y3 :: y4 :: dot2 :: rest =>
       decide (s = '/') && decide (lowerChar d = 'd') && decide (dot = '.') &&
         a.isDigit && b.isDigit && decide (h1 = '-') && c2.isDigit && d2.isDigit &&
         decide (h2 = '-') && y1.isDigit && y2.isDigit && y3.isDigit && y4.isDigit &&
         decide (dot2 = '.') && decide ((rest.map lowerChar) = "html".toList)
     | _ => false)

/-! ## Date-PLP link scan (`extractDatePlpLinksFromHtml`, index.js lines 108–120)

The regex is `(?:href=)?["']?([^"'\s>]*\/d\.\d{2}-\d{2}-\d{4}\.html)["']?`
with flags `gi`.  Every character of the capture belongs to the class
`[^"'\s>]`, so a capture is a prefix of the maximal class run at its start
position that ends with the date pattern; the greedy star prefers the longest
such prefix.  The optional `href=` and quote are consumed greedily before the
capture when present. -/

/-- The capture class `[^"'\s>]`. -/
def plpClass (c : Char) : Bool :=
  !(decide (c = '"') || decide (c = '\'') || jsWhitespace c || decide (c = '>'))

/-- A quote character, for the optional `["']` pieces. -/
def plpQuote (c : Char) : Bool := decide (c = '"') || decide (c = '\'')

/-- Greedy capture at a fixed start position: the longest prefix of the
maximal class run that ends with the date pattern. -/
def plpTryFrom (l : List Char) : Option (List Char) :=
  let R := l.takeWhile plpClass
  (List.range (R.length + 1)).findSome? (fun i =>
    if dateSuffixEnd (R.take (R.length - i)) then some (R.take (R.length - i))
    else none)

/-- Optional leading quote before the capture, tried greedily.  Returns the
capture and the number of characters consumed before it. -/
def plpAfterQuote (l : List Char) : Option (List Char × Nat) :=
  match l with
  | c :: t =>
    if plpQuote c then
      match plpTryFrom t with
      | some P => some (P, 1)
      | none => (plpTryFrom (c :: t)).map (fun P => (P, 0))
    else (plpTryFrom (c :: t)).map (fun P => (P, 0))
  | [] => (plpTryFrom []).map (fun P => (P, 0))

/-- Match attempt at a fixed position: optional `href=` (case-insensitive,
tried greedily), optional quote, then the capture.  Returns the capture and
the number of characters consumed up to and including it. -/
def plpMatchHere (l : List Char) : Option (List Char × Nat) :=
  match
    (if ciStart "href=".toList l then
      (plpAfterQuote (l.drop 5)).map (fun pq => (pq.1, 5 + pq.2 + pq.1.length))
     else none) with
  | some r => some r
  | none => (plpAfterQuote l).map (fun pq => (pq.1, pq.2 + pq.1.length))

/-- Global scan: positions are tried left to right and scanning resumes after
each full match (including an optional trailing quote).  Fuelled by the input
length, which suffices because every match consumes at least one character. -/
def plpScanAux : Nat → List Char → List (List Char)
  | 0, _ => []
  | _, [] => []
  | fuel + 1, c :: t =>
    match plpMatchHere (c :: t) with
    | some (P, consumed) =>
      let rest := (c :: t).drop consumed
      let rest2 :=
        match rest with
        | q :: t2 => if plpQuote q then t2 else q :: t2
        | [] => []
      P :: plpScanAux fuel rest2
    | none => plpScanAux fuel t

/-- `extractDatePlpLinksFromHtml` from index.js lines 108–120: every capture
is resolved (verbatim when it starts with `http`), canonicalized, and inserted
into the set. -/
def extractDatePlpLinksFromHtml (html base : String) : List String :=
  if html = "" then []
  else
    (plpScanAux html.toList.length html.toList).foldl
      (fun set cap => addUnique set (stripFragQuery (resolveHref (String.mk cap) base))) []

/-! ## Anchor scan (`extractAnchorsFromHtml`, index.js lines 96–105)

The regex is `<a\s+[^>]*href=(["'])(.*?)\1[^>]*>(.*?)<\/a>` with flags `gsi`.
After `<a` and at least one whitespace character, `[^>]*` cannot cross the
first `>`, so `href=` must occur before it; the greedy star prefers the last
occurrence in that region.  The value is read lazily up to the first matching
quote, the tag is closed at the first following `>`, and the anchor text runs
lazily up to the first `</a>`. -/

/-- An anchor reference as collected by the source: `href` plus the anchor
text with tags stripped and trimmed. -/
structure AnchorRef where
  href : String
  text : String
deriving DecidableEq, Repr

/-- Tag stripping `replace(/<[^>]*>/g, '')` for the anchor text: a `<` with a
later `>` is removed together with everything between; a `<` with no closing
`>` stays.  Fuelled by the input length. -/
def stripTagsAux : Nat → List Char → List Char
  | 0, l => l
  | _, [] => []
  | fuel + 1, c :: t =>
    if c = '<' then
      match splitAtSub ['>'] t with
      | some (_, r2) => stripTagsAux fuel r2
      | none => c :: stripTagsAux fuel t
    else c :: stripTagsAux fuel t

/-- Candidate offsets of `href=` inside the pre-`>` region of a tag, rightmost
first (greedy order); the offset is at least 1 because `\s+` consumes at least
one character. -/
def anchorHrefCandidates (region : List Char) : List Nat :=
  ((List.range region.length).filter
    (fun o => decide (1 ≤ o) && ciStart "href=".toList (region.drop o))).reverse

/-- Completes a match attempt once `href=` is placed at offset `o` of the
post-`<a` text `l1`: quote, lazy value, first `>`, lazy text, `</a>`. -/
def anchorFromCandidate (l1 : List Char) (o : Nat) : Option (AnchorRef × List Char) :=
  match l1.drop (o + 5) with
  | q :: r =>
    if plpQuote q then
      match splitAtSub [q] r with
      | some (value, r2) =>
        match splitAtSub ['>'] r2 with
        | some (_, r3) =>
          match splitAtSubCI "</a>".toList r3 with
          | some (txt, restAll) =>
            some (⟨String.mk value,
                   String.mk (jsTrim (stripTagsAux txt.length txt))⟩, restAll)
          | none => none
        | none => none
      | none => none
    else none
  | [] => none

/-- Match attempt of the anchor regex at a fixed position. -/
def anchorAt (l : List Char) : Option (AnchorRef × List Char) :=
  if ciStart "<a".toList l then
    match l.drop 2 with
    | c :: t =>
      if jsWhitespace c then
        (anchorHrefCandidates ((c :: t).takeWhile (fun x => decide (x ≠ '>')))).findSome?
          (fun o => anchorFromCandidate (c :: t) o)
      else none
    | [] => none
  else none

/-- Global anchor scan, fuelled by the input length. -/
def anchorScanAux : Nat → List Char → List AnchorRef
  | 0, _ => []
  | _, [] => []
  | fuel + 1, c :: t =>
    match anchorAt (c :: t) with
    | some (a, rest) => a :: anchorScanAux fuel rest
    | none => anchorScanAux fuel t

/-- `extractAnchorsFromHtml` from index.js lines 96–105. -/
def extractAnchorsFromHtml (html : String) : List AnchorRef :=
  if html = "" then [] else anchorScanAux html.toList.length html.toList

/-! ## Collectors and candidate sets -/

/-- `normalizeAndCollect` from index.js lines 123–136: skip empty,
`javascript:` and `mailto:` targets; keep only same-site references (leading
`/` or containing the base hostname); keep references that look like a PLP
(date pattern or `/d.`), contain the listing path, or contain one of the
promotion path fragments; resolve, canonicalize and insert. -/
def normalizeAndCollect (href base : String) (set : List String)
    (listingPath : String) : List String :=
  if href = "" then set
  else if litStart "javascript:".toList href.toList then set
  else if litStart "mailto:".toList href.toList then set
  else if !(litStart "/".toList href.toList
      || containsSub href.toList (urlHostname base).toList) then set
  else if (hasDateSub href.toList
        || containsSub (href.toList.map lowerChar) "/d.".toList)
      || (decide (listingPath ≠ "")
        && containsSub (href.toList.map lowerChar) (listingPath.toList.map lowerChar))
      || containsSub (href.toList.map lowerChar) "/angebote".toList
      || containsSub (href.toList.map lowerChar) "/offerte".toList
      || containsSub (href.toList.map lowerChar) "/anj".toList then
    addUnique set (stripFragQuery (resolveHref href base))
  else set

/-- The Link Discoverer for one listing page (index.js lines 296–300): the
anchor pass collected through `normalizeAndCollect`, then the raw date-PLP
pass unioned in. -/
def discoverLinks (html base listingPath : String) : List String :=
  (extractDatePlpLinksFromHtml html base).foldl addUnique
    ((extractAnchorsFromHtml html).foldl
      (fun set a => normalizeAndCollect a.href base set listingPath) [])

/-- Candidate-set construction for one country (index.js lines 291–309): when
the listing fetch produced markup, discover links from it; otherwise start
from the listing URL alone; in either case the listing URL is added at the
end (line 306). -/
def buildCandidates (listingHtml : Option String) (base listingPath : String) :
    List String :=
  match listingHtml with
  | some html => addUnique (discoverLinks html base listingPath) (mkListingUrl base listingPath)
  | none => addUnique (addUnique [] (mkListingUrl base listingPath)) (mkListingUrl base listingPath)

/-! ## Per-page pipeline (index.js lines 311–342)

Network and browser responses are passed in explicitly: `fetched` is what
`tryFetchHtml` returned, `selTexts` are the texts of the candidate selector
elements present on the page (in selector order, whole-body fallback text in
`selWhole`), and `rendered` is the body text produced by a full render. -/

/-- External responses available to the pipeline for one page. -/
structure PageEnv where
  fetched : Option String
  selTexts : List String
  selWhole : Option String
  rendered : Option String

/-- Result computation of `extractCountUsingPlaywrightSelectors` (index.js
lines 230–269): `null` without Playwright; otherwise the first selector text
from which the extractor obtains a count, falling back to the whole-body
text. -/
def extractCountUsingPlaywrightSelectorsModel (pw : Bool) (io : PageEnv)
    (kws : List String) : Option Int :=
  if pw then
    match io.selTexts.findSome? (fun t => extractCountFromTextImproved t kws) with
    | some c => some c
    | none => io.selWhole.bind (fun w => extractCountFromTextImproved w kws)
  else none

/-- Result computation of `renderPageTextWithPlaywright` (index.js lines
201–227): `null` without Playwright, the rendered text otherwise. -/
def renderPageTextModel (pw : Bool) (io : PageEnv) : Option String :=
  if pw then io.rendered else none

/-- Count produced by the per-page loop body (index.js lines 315–339):
fetch-first extraction; when that yields nothing and Playwright is available
or the site is flagged for rendering, selector extraction, then a full render
with the extractor on its text. -/
def perPageCount (pw force : Bool) (io : PageEnv) (kws : List String) : Option Int :=
  match io.fetched.bind (fun h => extractCountFromTextImproved h kws), pw || force with
  | none, true =>
    (match extractCountUsingPlaywrightSelectorsModel pw io kws with
     | some c => some c
     | none =>
       match (renderPageTextModel pw io).bind
           (fun r => extractCountFromTextImproved r kws) with
       | some c2 => some c2
       | none => none)
  | c0, _ => c0

/-- Number of browser sessions the per-page loop opens for one page: the
fallback branch opens one for selector extraction and one more for the full
render when selector extraction found nothing, and none at all when Playwright
is unavailable (both functions return immediately at lines 202 and 231). -/
def perPageRenderSessions (pw force : Bool) (io : PageEnv) (kws : List String) : Nat :=
  match io.fetched.bind (fun h => extractCountFromTextImproved h kws), pw || force with
  | none, true =>
    (if pw then 1 else 0) +
      (match extractCountUsingPlaywrightSelectorsModel pw io kws with
       | some _ => 0
       | none => if pw then 1 else 0)
  | _, _ => 0

/-! ## Country page loop (index.js lines 311–347) -/

/-- Outcome of one iteration of the per-page `try` block, as decided by the
environment: a computed count (possibly unknown) or a thrown exception. -/
inductive PageStep where
  | ok (count : Option Int)
  | exn (reason : String)

/-- One entry of `countryResult.plps` (`count: null` rendered as unknown). -/
structure PageOutcome where
  url : String
  count : Option Int
deriving DecidableEq, Repr

/-- One entry of `countryResult.unknowns`. -/
structure PageFailure where
  url : String
  reason : String
deriving DecidableEq, Repr

/-- The per-page loop (index.js lines 311–347): each candidate URL appends
exactly one entry, to `plps` on normal completion and to `unknowns` when its
iteration throws. -/
def processPages (env : String → PageStep) : List String → List PageOutcome × List PageFailure
  | [] => ([], [])
  | u :: rest =>
    let res := processPages env rest
    match env u with
    | .ok c => (⟨u, c⟩ :: res.1, res.2)
    | .exn r => (res.1, ⟨u, r⟩ :: res.2)

/-! ## Rendering-session discipline (index.js lines 201–269) -/

/-- How far one invocation of `renderPageTextWithPlaywright` gets before a
step throws.  `launchFail` means `chromium.launch` itself threw, so `browser`
was never assigned; `setupFail` covers a throw in context/page creation or
header setup; a `goto` failure is swallowed by the `.catch` at line 212 and is
recorded only as the `gotoOk` flag; `evalFail` means reading the body text (or
a close call) threw. -/
inductive RenderRun where
  | launchFail
  | setupFail
  | evalFail (gotoOk : Bool)
  | success (gotoOk : Bool) (text : String)
deriving DecidableEq

/-- Result and number of `browser.close()` calls of one invocation of
`renderPageTextWithPlaywright`: the success path closes the session once
(lines 216–218), every abnormal path reaches the `catch` block, which closes
the browser exactly when it was assigned (lines 221–223). -/
def renderPageTextWithPlaywrightRun : RenderRun → Option String × Nat
  | .launchFail => (none, 0)
  | .setupFail => (none, 1)
  | .evalFail _ => (none, 1)
  | .success _ t => (some t, 1)

/-- Whether the invocation got as far as owning a browser session. -/
def renderLaunched : RenderRun → Bool
  | .launchFail => false
  | _ => true

/-- Total teardown calls over a list of invocations. -/
def renderTeardowns (runs : List RenderRun) : Nat :=
  (runs.map (fun r => (renderPageTextWithPlaywrightRun r).2)).sum

/-- Number of invocations that acquired a session. -/
def renderLaunchCount (runs : List RenderRun) : Nat :=
  (runs.filter renderLaunched).length

/-- The same discipline for `extractCountUsingPlaywrightSelectors` (index.js
lines 230–269): early returns inside the selector loop (lines 248–251), the
whole-body fallback (lines 258–261) and the `catch` block (lines 263–265) all
close the browser; only a `launch` throw leaves nothing to close. -/
inductive SelectorsRun where
  | launchFail
  | midFail
  | foundAtSelector (c : Int)
  | wholeBody (c : Option Int)
deriving DecidableEq

/-- Result and teardown count of one invocation of
`extractCountUsingPlaywrightSelectors`. -/
def extractCountUsingPlaywrightSelectorsRun : SelectorsRun → Option Int × Nat
  | .launchFail => (none, 0)
  | .midFail => (none, 1)
  | .foundAtSelector c => (some c, 1)
  | .wholeBody c => (c, 1)

/-! ## Secret gate and handler (index.js lines 276–283) -/

/-- The response of `/check-hofer` as seen by the caller, with the report
abstract. -/
inductive CheckResponse (α : Type) where
  | unauthorized
  | report (r : α)
deriving DecidableEq

/-- The admission decision of lines 279–283: gating is active only when
`SCRAPER_SECRET` is set and non-empty (`if (secret)`); an absent or empty
header is rejected (`!header`), otherwise the header must equal the secret. -/
def secretGateAdmits (secret header : Option String) : Bool :=
  match secret with
  | none => true
  | some s =>
    if s = "" then true
    else
      match header with
      | none => false
      | some h => if h = "" then false else decide (h = s)

/-- The handler around the batch: an inadmissible request is answered with
the unauthorized response before the batch runs, so its network-operation
count is zero; otherwise the batch result and its operation count pass
through.  `batch` stands for the country loop's report together with the
number of network operations it performs. -/
def checkHoferRun {α : Type} (secret header : Option String) (batch : α × Nat) :
    CheckResponse α × Nat :=
  if secretGateAdmits secret header then (.report batch.1, batch.2)
  else (.unauthorized, 0)

/-! ## Discovery models (index.js lines 291–309 and part_001 lines 129–168) -/

/-- Country discovery of index.js paired with the number of rendering
sessions it opens: the code between lines 291 and 309 contains no Playwright
call, so the count is structurally zero whatever the fetch returned. -/
def discoverCandidatesWithRenders (listingHtml : Option String)
    (base listingPath : String) : List String × Nat :=
  (buildCandidates listingHtml base listingPath, 0)

/-- Outcome of one Playwright navigation attempt during part_001 discovery. -/
inductive NavResult where
  | ok (html : String)
  | err

/-- Timeout and backoff actually used by one discovery attempt; `backoffMs`
is 0 on attempts that did not fail (the delay sits in the `catch` block). -/
structure DiscoveryAttempt where
  navTimeoutMs : Nat
  backoffMs : Nat
deriving DecidableEq, Repr

/-- `normalizeAndCollect` of part_001 (lines 64–73): internal means a leading
`/` or containing `hofer.at`; kept when the reference contains `/angebote` or
matches the date pattern. -/
def p1normalizeAndCollect (href base : String) (set : List String) : List String :=
  if href = "" then set
  else if litStart "javascript:".toList href.toList then set
  else if (litStart "/".toList href.toList
        || containsSub href.toList "hofer.at".toList)
      && (containsSub (href.toList.map lowerChar) "/angebote".toList
        || hasDateSub href.toList) then
    addUnique set (stripFragQuery (resolveHref href base))
  else set

/-- Link collection from one successful discovery navigation (part_001 lines
154–157): anchors through `p1normalizeAndCollect`, then raw date-PLP links. -/
def p1DiscCollect (html : String) (set : List String) : List String :=
  (extractDatePlpLinksFromHtml html "https://hofer.at").foldl addUnique
    ((extractAnchorsFromHtml html).foldl
      (fun s a => p1normalizeAndCollect a.href "https://hofer.at" s) set)

/-- The retry loop of part_001 lines 133–168, from a given attempt number
with a given number of attempts remaining: each attempt navigates with
timeout `60000 * attempt`; success collects links and stops early once more
than the listing root is known; failure backs off `1000 * attempt`
milliseconds and retries. -/
def p1DiscoveryAux (oracle : Nat → NavResult) :
    Nat → Nat → List String → List String × List DiscoveryAttempt
  | _, 0, set => (set, [])
  | attempt, rem + 1, set =>
    match oracle attempt with
    | .ok html =>
      let set2 := p1DiscCollect html set
      if 1 < set2.length then (set2, [⟨60000 * attempt, 0⟩])
      else
        let res := p1DiscoveryAux oracle (attempt + 1) rem set2
        (res.1, ⟨60000 * attempt, 0⟩ :: res.2)
    | .err =>
      let res := p1DiscoveryAux oracle (attempt + 1) rem set
      (res.1, ⟨60000 * attempt, 1000 * attempt⟩ :: res.2)

/-- Playwright discovery of part_001 (lines 129–168): entered only when fetch
discovery produced nothing beyond the listing root (`size <= 1`, line 130),
then up to 3 attempts starting at attempt 1. -/
def p1PlaywrightDiscovery (oracle : Nat → NavResult) (set0 : List String) :
    List String × List DiscoveryAttempt :=
  if set0.length ≤ 1 then p1DiscoveryAux oracle 1 3 set0 else (set0, [])

/-! ## Flattened text report (index.js lines 364–376) -/

/-- An entry of a country's `plps` list as rendered in the text report. -/
structure PlpEntry where
  url : String
  count : Option Int
deriving DecidableEq, Repr

/-- Rendering of a count in a report line (`'unknown'` for `null`). -/
def showCount : Option Int → String
  | none => "unknown"
  | some v => toString v

/-- One page line of the text report (line 371). -/
def plpLine (p : PlpEntry) : String :=
  p.url ++ " - Product found " ++ showCount p.count

/-- The date-page test applied to an entry's URL (lines 370 and 373). -/
def isDateUrl (s : String) : Bool := hasDateSub s.toList

/-- The block of text-report lines for one country (index.js lines 367–375):
code, date-PLP count line, the lines of the date-page entries in list order,
then the lines of the remaining entries, then a blank separator. -/
def renderCountryBlock (code : String) (datePlpsFound : Nat) (plps : List PlpEntry) :
    List String :=
  [code, "Date PLPs found - " ++ toString datePlpsFound]
    ++ (plps.filter (fun p => isDateUrl p.url)).map plpLine
    ++ (plps.filter (fun p => !isDateUrl p.url)).map plpLine
    ++ [""]

/-! ## Auxiliary definitions used in theorem statements -/

/-- A digit sequence grouped in threes: a leading digit group followed by
three-digit groups, each preceded by the separator (e.g. `1`, `.`, `234`). -/
def groupedNumberString (lead : List Char) (sep : Char) (groups : List (List Char)) : String :=
  String.mk (lead ++ (groups.map (fun g => sep :: g)).flatten)

/-- Number of `plps` entries recorded for a given URL. -/
def countUrlO (l : List PageOutcome) (u : String) : Nat :=
  (l.filter (fun p => decide (p.url = u))).length

/-- Number of `unknowns` entries recorded for a given URL. -/
def countUrlF (l : List PageFailure) (u : String) : Nat :=
  (l.filter (fun p => decide (p.url = u))).length

/-- A canonicalized URL: neither a fragment nor a query marker occurs. -/
def noFragQuery (s : String) : Prop := ∀ c ∈ s.toList, c ≠ '#' ∧ c ≠ '?'

/-! ## General helper lemmas -/

theorem mem_of_mem_takeWhile {α} {p : α → Bool} :
    ∀ {l : List α} {a : α}, a ∈ l.takeWhile p → a ∈ l := by
  intro l
  induction l with
  | nil => intro a h; simp [List.takeWhile] at h
  | cons x t ih =>
    intro a h
    rw [List.takeWhile] at h
    by_cases hp : p x
    · simp only [hp] at h
      rcases List.mem_cons.mp h with h1 | h1
      · exact h1 ▸ List.mem_cons_self x t
      · exact List.mem_cons_of_mem x (ih h1)
    · simp only [Bool.not_eq_true] at hp
      simp [hp] at h

theorem pred_of_mem_takeWhile {α} {p : α → Bool} :
    ∀ {l : List α} {a : α}, a ∈ l.takeWhile p → p a = true := by
  intro l
  induction l with
  | nil => intro a h; simp [List.takeWhile] at h
  | cons x t ih =>
    intro a h
    rw [List.takeWhile] at h
    by_cases hp : p x
    · simp only [hp] at h
      rcases List.mem_cons.mp h with h1 | h1
      · exact h1 ▸ hp
      · exact ih h1
    · simp only [Bool.not_eq_true] at hp
      simp [hp] at h

theorem mem_of_mem_take {α} : ∀ {l : List α} {n : Nat} {a : α}, a ∈ l.take n → a ∈ l := by
  intro l
  induction l with
  | nil => intro n a h; simp at h
  | cons x t ih =>
    intro n a h
    cases n with
    | zero => simp at h
    | succ m =>
      rw [List.take_succ_cons] at h
      rcases List.mem_cons.mp h with h1 | h1
      · exact h1 ▸ List.mem_cons_self x t
      · exact List.mem_cons_of_mem x (ih h1)

theorem exists_of_findSomeEq {α β} {f : α → Option β} :
    ∀ {l : List α} {b : β}, l.findSome? f = some b → ∃ a, a ∈ l ∧ f a = some b := by
  intro l
  induction l with
  | nil => intro b h; simp [List.findSome?] at h
  | cons x t ih =>
    intro b h
    rw [List.findSome?_cons] at h
    cases hfx : f x with
    | some c =>
      rw [hfx] at h
      exact ⟨x, List.mem_cons_self x t, hfx.trans h⟩
    | none =>
      rw [hfx] at h
      obtain ⟨a, ha, hfa⟩ := ih h
      exact ⟨a, List.mem_cons_of_mem x ha, hfa⟩

theorem foldl_preserve {α β} {P : β → Prop} (f : β → α → β)
    (hstep : ∀ b a, P b → P (f b a)) :
    ∀ (l : List α) (b : β), P b → P (l.foldl f b) := by
  intro l
  induction l with
  | nil => intro b hb; simpa using hb
  | cons x t ih =>
    intro b hb
    rw [List.foldl_cons]
    exact ih _ (hstep b x hb)

/-! ## Nonnegativity of the extractor (claim C3 support)

Every number token the extractor captures matches a pattern whose character
class is `isNumCont` (or, for part_002's fallback, `fbCont`); no such class
contains the minus sign, and `normalizeNumberString` can only produce a
negative value from a minus sign surviving into its digit filter. -/

theorem numCont_ne_minus {c : Char} (h : isNumCont c = true) : c ≠ '-' := by
  rintro rfl
  revert h
  decide

theorem nbspToSpace2_ne_minus {c : Char} (h : c ≠ '-') : nbspToSpace2 c ≠ '-' := by
  unfold nbspToSpace2
  split
  · decide
  · exact h

theorem rtAux_cons (prev : Option Char) (c : Char) (t : List Char) :
    rtAux prev (c :: t) =
      if isThouSep c && (match prev with | some p => p.isDigit | none => false)
          && threeDigitsBoundary t then
        rtAux (some c) t
      else c :: rtAux (some c) t := rfl

theorem jsParseInt_cons (c : Char) (t : List Char) :
    jsParseInt (c :: t) =
      if c = '-' then (leadDigitsVal t).map (fun n => -(Int.ofNat n))
      else (leadDigitsVal (c :: t)).map Int.ofNat := rfl

theorem re1At_cons (c : Char) (t : List Char) (kw : List Char) :
    re1At (c :: t) kw =
      (if c.isDigit then
        (List.range ((c :: t).takeWhile isNumCont).length).findSome? (fun i =>
          if gapThenKw ((c :: t).drop (((c :: t).takeWhile isNumCont).length - i)) kw then
            some (((c :: t).takeWhile isNumCont).take
              (((c :: t).takeWhile isNumCont).length - i))
          else none)
      else none) := rfl

theorem re1Match_cons (c : Char) (t : List Char) (kw : List Char) :
    re1Match (c :: t) kw =
      (match re1At (c :: t) kw with
       | some cap => some cap
       | none => re1Match t kw) := rfl

theorem re2Match_cons (c : Char) (t : List Char) (kw : List Char) :
    re2Match (c :: t) kw =
      (match re2At (c :: t) kw with
       | some cap => some cap
       | none => re2Match t kw) := rfl

theorem firstNumToken_cons (c : Char) (t : List Char) :
    firstNumToken (c :: t) =
      (if c.isDigit then some ((c :: t).takeWhile isNumCont) else firstNumToken t) := rfl

theorem rtAux_subset : ∀ (l : List Char) (prev : Option Char) {c : Char},
    c ∈ rtAux prev l → c ∈ l := by
  intro l
  induction l with
  | nil => intro prev c h; simp [rtAux] at h
  | cons x t ih =>
    intro prev c h
    rw [rtAux_cons] at h
    split at h
    · exact List.mem_cons_of_mem x (ih _ h)
    · rcases List.mem_cons.mp h with h1 | h1
      · exact h1 ▸ List.mem_cons_self x t
      · exact List.mem_cons_of_mem x (ih _ h1)

theorem digit_ne_minus {c : Char} (h : c.isDigit = true) : c ≠ '-' := by
  rintro rfl
  revert h
  decide

/-- When no character of the input is a minus sign, the normalizer returns
either nothing or a nonnegative value. -/
theorem normalizeNumChars_nonneg {l : List Char} (hm : ∀ c ∈ l, c ≠ '-') {v : Int}
    (hv : normalizeNumChars l = some v) : 0 ≤ v := by
  unfold normalizeNumChars at hv
  split at hv
  · exact absurd hv (by simp)
  · simp only at hv
    split at hv
    · exact absurd hv (by simp)
    · rename_i hne
      have hdigits : ∀ c ∈ (rtAux none (l.map nbspToSpace2)).filter keepDigitMinus,
          c.isDigit = true := by
        intro c hc
        have hmem := List.mem_filter.mp hc
        have hkeep := hmem.2
        have hc2 : c ∈ l.map nbspToSpace2 := rtAux_subset _ _ hmem.1
        obtain ⟨c0, hc0, hc0e⟩ := List.mem_map.mp hc2
        have : c ≠ '-' := hc0e ▸ nbspToSpace2_ne_minus (hm c0 hc0)
        unfold keepDigitMinus at hkeep
        rcases Bool.or_eq_true_iff.mp hkeep with h1 | h1
        · exact h1
        · exact absurd (by exact decide_eq_true_eq.mp h1) this
      cases hl : (rtAux none (l.map nbspToSpace2)).filter keepDigitMinus with
      | nil => exact absurd hl hne
      | cons c0 t0 =>
        rw [hl] at hv
        have hc0d : c0.isDigit = true := hdigits c0 (hl ▸ List.mem_cons_self c0 t0)
        rw [jsParseInt_cons, if_neg (digit_ne_minus hc0d)] at hv
        obtain ⟨n, hn1, hn2⟩ := Option.map_eq_some'.mp hv
        rw [← hn2]
        exact Int.ofNat_nonneg n

theorem re1At_token {l kw cap : List Char} (h : re1At l kw = some cap) :
    ∀ c ∈ cap, isNumCont c = true := by
  cases l with
  | nil => simp [re1At] at h
  | cons x t =>
    rw [re1At_cons] at h
    split at h
    · obtain ⟨i, _, hi2⟩ := exists_of_findSomeEq h
      intro c hc
      split at hi2
      · cases hi2
        exact pred_of_mem_takeWhile (mem_of_mem_take hc)
      · exact absurd hi2 (by simp)
    · exact absurd h (by simp)

theorem re1Match_token : ∀ (l : List Char) (kw : List Char) {cap : List Char},
    re1Match l kw = some cap → ∀ c ∈ cap, isNumCont c = true := by
  intro l
  induction l with
  | nil => intro kw cap h; simp [re1Match] at h
  | cons x t ih =>
    intro kw cap h
    rw [re1Match_cons] at h
    cases hat : re1At (x :: t) kw with
    | some cap2 =>
      rw [hat] at h
      cases h
      exact re1At_token hat
    | none =>
      rw [hat] at h
      exact ih kw h

theorem re2At_eq (l kw : List Char) :
    re2At l kw =
      (if ciStart kw l then
        if (List.takeWhile gapChar (l.drop kw.length)).length ≤ 40 then
          match (l.drop kw.length).drop (List.takeWhile gapChar (l.drop kw.length)).length with
          | c :: cs => if c.isDigit then some ((c :: cs).takeWhile isNumCont) else none
          | [] => none
        else none
      else none) := rfl

theorem re2At_token {l kw cap : List Char} (h : re2At l kw = some cap) :
    ∀ c ∈ cap, isNumCont c = true := by
  rw [re2At_eq] at h
  split at h
  · split at h
    · split at h
      · split at h
        · cases h
          intro c hc
          exact pred_of_mem_takeWhile hc
        · exact absurd h (by simp)
      · exact absurd h (by simp)
    · exact absurd h (by simp)
  · exact absurd h (by simp)

theorem re2Match_token : ∀ (l : List Char) (kw : List Char) {cap : List Char},
    re2Match l kw = some cap → ∀ c ∈ cap, isNumCont c = true := by
  intro l
  induction l with
  | nil => intro kw cap h; simp [re2Match] at h
  | cons x t ih =>
    intro kw cap h
    rw [re2Match_cons] at h
    cases hat : re2At (x :: t) kw with
    | some cap2 =>
      rw [hat] at h
      cases h
      exact re2At_token hat
    | none =>
      rw [hat] at h
      exact ih kw h

theorem firstNumToken_token : ∀ (l : List Char) {cap : List Char},
    firstNumToken l = some cap → ∀ c ∈ cap, isNumCont c = true := by
  intro l
  induction l with
  | nil => intro cap h; simp [firstNumToken] at h
  | cons x t ih =>
    intro cap h
    rw [firstNumToken_cons] at h
    split at h
    · cases h
      intro c hc
      exact pred_of_mem_takeWhile hc
    · exact ih h

/-- A captured token whose characters all lie in the number class normalizes
to nothing or to a nonnegative value. -/
theorem normalize_token_nonneg {cap : List Char}
    (htok : ∀ c ∈ cap, isNumCont c = true) {v : Int}
    (hv : normalizeNumChars cap = some v) : 0 ≤ v :=
  normalizeNumChars_nonneg (fun c hc => numCont_ne_minus (htok c hc)) hv

theorem tryKeywordPatterns_nonneg :
    ∀ (kws : List String) (normalized : List Char) {v : Int},
      tryKeywordPatterns normalized kws = some v → 0 ≤ v := by
  intro kws
  induction kws with
  | nil => intro normalized v h; simp [tryKeywordPatterns] at h
  | cons kw rest ih =>
    intro normalized v h
    rw [tryKeywordPatterns] at h
    split at h
    · exact ih normalized h
    · cases h1 : (re1Match normalized kw.toList).bind normalizeNumChars with
      | some w =>
        rw [h1] at h
        cases h
        obtain ⟨cap, hcap, hnorm⟩ := Option.bind_eq_some.mp h1
        exact normalize_token_nonneg (re1Match_token _ _ hcap) hnorm
      | none =>
        rw [h1] at h
        cases h2 : (re2Match normalized kw.toList).bind normalizeNumChars with
        | some w =>
          rw [h2] at h
          cases h
          obtain ⟨cap, hcap, hnorm⟩ := Option.bind_eq_some.mp h2
          exact normalize_token_nonneg (re2Match_token _ _ hcap) hnorm
        | none =>
          rw [h2] at h
          exact ih normalized h

theorem lineToken_nonneg {li : List Char} {v : Int}
    (h : (firstNumToken li).bind normalizeNumChars = some v) : 0 ≤ v := by
  obtain ⟨cap, hcap, hnorm⟩ := Option.bind_eq_some.mp h
  exact normalize_token_nonneg (firstNumToken_token _ hcap) hnorm

theorem lineHit_nonneg {prev : Option (List Char)} {li : List Char}
    {next : Option (List Char)} {kw : List Char} {v : Int}
    (h : lineHit prev li next kw = some v) : 0 ≤ v := by
  unfold lineHit at h
  split at h
  · split at h
    · rename_i h1
      cases h
      exact lineToken_nonneg h1
    · split at h
      · rename_i h2
        cases h
        obtain ⟨pl, _, hpl⟩ := Option.bind_eq_some.mp h2
        exact lineToken_nonneg hpl
      · obtain ⟨nl, _, hnl⟩ := Option.bind_eq_some.mp h
        exact lineToken_nonneg hnl
  · exact absurd h (by simp)

theorem lineScanAux_nonneg (kws : List String) :
    ∀ (lines : List (List Char)) (prev : Option (List Char)) {v : Int},
      lineScanAux kws prev lines = some v → 0 ≤ v := by
  intro lines
  induction lines with
  | nil => intro prev v h; simp [lineScanAux] at h
  | cons li rest ih =>
    intro prev v h
    rw [lineScanAux] at h
    cases h1 : kws.findSome? (fun kw => lineHit prev li rest.head? kw.toList) with
    | some w =>
      rw [h1] at h
      cases h
      obtain ⟨kw, _, hkw⟩ := exists_of_findSomeEq h1
      exact lineHit_nonneg hkw
    | none =>
      rw [h1] at h
      exact ih (some li) h

theorem lastResort_nonneg {normalized : List Char} {v : Int}
    (h : lastResort normalized = some v) : 0 ≤ v := by
  unfold lastResort at h
  split at h
  · exact absurd h (by simp)
  · split at h
    · rename_i hgt
      cases h
      omega
    · exact absurd h (by simp)

/-- Every count the extractor of index.js returns is nonnegative. -/
theorem extractCountFromTextImproved_nonneg (text : String) (kws : List String)
    {v : Int} (h : extractCountFromTextImproved text kws = some v) : 0 ≤ v := by
  unfold extractCountFromTextImproved at h
  split at h
  · exact absurd h (by simp)
  · simp only at h
    cases h1 : tryKeywordPatterns (normalizeWsText text.toList) kws with
    | some w =>
      rw [h1] at h
      cases h
      exact tryKeywordPatterns_nonneg _ _ h1
    | none =>
      rw [h1] at h
      cases h2 : lineScanAux kws none (linesOf (normalizeWsText text.toList)) with
      | some w =>
        rw [h2] at h
        cases h
        exact lineScanAux_nonneg _ _ _ h2
      | none =>
        rw [h2] at h
        exact lastResort_nonneg h

/-- Counts produced by the selector-extraction model come from the extractor
and are therefore nonnegative. -/
theorem selectorsModel_nonneg (pw : Bool) (io : PageEnv) (kws : List String)
    {c : Int} (h : extractCountUsingPlaywrightSelectorsModel pw io kws = some c) :
    0 ≤ c := by
  unfold extractCountUsingPlaywrightSelectorsModel at h
  split at h
  · split at h
    · rename_i c2 h2
      cases h
      obtain ⟨t, _, ht⟩ := exists_of_findSomeEq h2
      exact extractCountFromTextImproved_nonneg _ _ ht
    · obtain ⟨w, _, hw⟩ := Option.bind_eq_some.mp h
      exact extractCountFromTextImproved_nonneg _ _ hw
  · exact absurd h (by simp)

/-- The per-page pipeline only ever reports counts obtained from the
extractor, so its counts are nonnegative too. -/
theorem perPageCount_nonneg (pw force : Bool) (io : PageEnv) (kws : List String)
    {v : Int} (h : perPageCount pw force io kws = some v) : 0 ≤ v := by
  unfold perPageCount at h
  split at h
  · split at h
    · rename_i c h1
      cases h
      exact selectorsModel_nonneg pw io kws h1
    · split at h
      · rename_i c2 h2
        cases h
        obtain ⟨r, _, hr⟩ := Option.bind_eq_some.mp h2
        exact extractCountFromTextImproved_nonneg _ _ hr
      · exact absurd h (by simp)
  · obtain ⟨html, _, hh⟩ := Option.bind_eq_some.mp h
    exact extractCountFromTextImproved_nonneg _ _ hh

/-! ## Thousands-separator removal on grouped digit strings (claim C8 support) -/

theorem isThouSep_of_sep {sep : Char} (h : sep = '.' ∨ sep = ',' ∨ sep = ' ') :
    isThouSep sep = true := by
  rcases h with h | h | h <;> subst h <;> decide

theorem not_word_of_sep {sep : Char} (h : sep = '.' ∨ sep = ',' ∨ sep = ' ') :
    isWordChar sep = false := by
  rcases h with h | h | h <;> subst h <;> decide

theorem digit_not_thouSep {c : Char} (h : c.isDigit = true) : isThouSep c = false := by
  have h1 : c ≠ '.' := by rintro rfl; revert h; decide
  have h2 : c ≠ ',' := by rintro rfl; revert h; decide
  have h3 : c ≠ ' ' := by rintro rfl; revert h; decide
  simp [isThouSep, h1, h2, h3]

theorem digit_not_nbsp {c : Char} (h : c.isDigit = true) :
    c ≠ ' ' ∧ c ≠ ' ' := by
  constructor <;> rintro rfl <;> revert h <;> decide

theorem map_eq_self_of {α} (f : α → α) :
    ∀ {l : List α}, (∀ a ∈ l, f a = a) → l.map f = l := by
  intro l
  induction l with
  | nil => intro _; rfl
  | cons x t ih =>
    intro h
    rw [List.map_cons, h x (List.mem_cons_self x t),
      ih (fun a ha => h a (List.mem_cons_of_mem x ha))]

theorem takeWhile_eq_self_of {α} {p : α → Bool} :
    ∀ {l : List α}, (∀ a ∈ l, p a = true) → l.takeWhile p = l := by
  intro l
  induction l with
  | nil => intro _; rfl
  | cons x t ih =>
    intro h
    have ht := ih (fun a ha => h a (List.mem_cons_of_mem x ha))
    simp [List.takeWhile_cons, h x (List.mem_cons_self x t), ht]

theorem filter_eq_self_of {α} {p : α → Bool} :
    ∀ {l : List α}, (∀ a ∈ l, p a = true) → l.filter p = l := by
  intro l
  induction l with
  | nil => intro _; rfl
  | cons x t ih =>
    intro h
    rw [List.filter_cons, if_pos (h x (List.mem_cons_self x t)),
      ih (fun a ha => h a (List.mem_cons_of_mem x ha))]

/-- A run of digits passes through the separator removal unchanged, leaving
the last digit as the lookbehind for what follows. -/
theorem rtAux_digit_run : ∀ (ds : List Char) (d : Char), d.isDigit = true →
    (∀ c ∈ ds, c.isDigit = true) → ∀ (prev : Option Char) (rest : List Char),
      rtAux prev (ds ++ d :: rest) = ds ++ d :: rtAux (some d) rest := by
  intro ds
  induction ds with
  | nil =>
    intro d hd _ prev rest
    rw [List.nil_append, rtAux_cons, if_neg]
    · rfl
    · simp [digit_not_thouSep hd]
  | cons x t ih =>
    intro d hd hds prev rest
    rw [List.cons_append, rtAux_cons, if_neg]
    · rw [ih d hd (fun c hc => hds c (List.mem_cons_of_mem x hc)) (some x) rest]
      rfl
    · simp [digit_not_thouSep (hds x (List.mem_cons_self x t))]

/-- With a digit as lookbehind, every separator introducing a three-digit
group is removed and the groups are concatenated. -/
theorem rtAux_groups : ∀ (groups : List (List Char)) (sep d : Char),
    d.isDigit = true → (sep = '.' ∨ sep = ',' ∨ sep = ' ') →
    (∀ g ∈ groups, g.length = 3 ∧ ∀ c ∈ g, c.isDigit = true) →
    rtAux (some d) ((groups.map (fun g => sep :: g)).flatten) = groups.flatten := by
  intro groups
  induction groups with
  | nil => intro sep d _ _ _; rfl
  | cons g gs ih =>
    intro sep d hd hsep hg
    obtain ⟨hlen, hdig⟩ := hg g (List.mem_cons_self g gs)
    obtain ⟨a, b, c, rfl⟩ := List.length_eq_three.mp hlen
    have ha : a.isDigit = true := hdig a (by simp)
    have hb : b.isDigit = true := hdig b (by simp)
    have hc : c.isDigit = true := hdig c (by simp)
    have hbound : threeDigitsBoundary
        (a :: b :: c :: (gs.map (fun g => sep :: g)).flatten) = true := by
      cases gs with
      | nil => simp [threeDigitsBoundary, ha, hb, hc]
      | cons g2 gs2 =>
        have hfl : ((g2 :: gs2).map (fun g => sep :: g)).flatten
            = sep :: (g2 ++ (gs2.map (fun g => sep :: g)).flatten) := by simp
        simp [threeDigitsBoundary, ha, hb, hc, hfl, not_word_of_sep hsep]
    show rtAux (some d) (sep :: ([a, b, c] ++ (gs.map (fun g => sep :: g)).flatten))
        = [a, b, c] ++ gs.flatten
    rw [rtAux_cons, if_pos]
    · have hab : ∀ x ∈ [a, b], x.isDigit = true := by
        intro x hx
        rcases List.mem_cons.mp hx with h1 | h1
        · exact h1 ▸ ha
        · rw [List.mem_singleton.mp h1]
          exact hb
      have hrun := rtAux_digit_run [a, b] c hc hab (some sep)
        ((gs.map (fun g => sep :: g)).flatten)
      have heq2 : [a, b] ++ c :: (gs.map (fun g => sep :: g)).flatten
          = [a, b, c] ++ (gs.map (fun g => sep :: g)).flatten := rfl
      rw [heq2] at hrun
      rw [hrun, ih sep c hc hsep (fun g2 hg2 => hg g2 (List.mem_cons_of_mem _ hg2))]
      rfl
    · simp [isThouSep_of_sep hsep, hd, hbound]

/-! ## Set-insertion and page-loop lemmas (claims C5 and C9 support) -/

theorem mem_addUnique_self (s : List String) (x : String) : x ∈ addUnique s x := by
  unfold addUnique
  split
  · assumption
  · exact List.mem_append_right s (List.mem_cons_self x [])

theorem mem_addUnique_of_mem {s : List String} {u : String} (x : String)
    (h : u ∈ s) : u ∈ addUnique s x := by
  unfold addUnique
  split
  · exact h
  · exact List.mem_append_left _ h

theorem eq_or_mem_of_mem_addUnique {s : List String} {x u : String}
    (h : u ∈ addUnique s x) : u = x ∨ u ∈ s := by
  unfold addUnique at h
  split at h
  · exact Or.inr h
  · rcases List.mem_append.mp h with h1 | h1
    · exact Or.inr h1
    · exact Or.inl (List.mem_singleton.mp h1)

theorem nodup_addUnique {s : List String} (x : String) (h : s.Nodup) :
    (addUnique s x).Nodup := by
  unfold addUnique
  split
  · exact h
  · rename_i hx
    rw [List.nodup_append]
    exact ⟨h, List.nodup_singleton x, fun a ha hax => hx ((List.mem_singleton.mp hax) ▸ ha)⟩

theorem foldl_preserve_mem {α β} {P : β → Prop} (f : β → α → β) (l : List α)
    (hstep : ∀ b a, a ∈ l → P b → P (f b a)) : ∀ b, P b → P (l.foldl f b) := by
  induction l with
  | nil => intro b hb; simpa using hb
  | cons x t ih =>
    intro b hb
    rw [List.foldl_cons]
    exact ih (fun b' a ha hb' => hstep b' a (List.mem_cons_of_mem x ha) hb') _
      (hstep b x (List.mem_cons_self x t) hb)

/-- `normalizeAndCollect` either leaves the set unchanged or inserts the
canonicalized resolution of its reference. -/
theorem normalizeAndCollect_cases (href base : String) (set : List String)
    (lp : String) :
    normalizeAndCollect href base set lp = set ∨
      normalizeAndCollect href base set lp
        = addUnique set (stripFragQuery (resolveHref href base)) := by
  unfold normalizeAndCollect
  split
  · exact Or.inl rfl
  · split
    · exact Or.inl rfl
    · split
      · exact Or.inl rfl
      · split
        · exact Or.inl rfl
        · split
          · exact Or.inr rfl
          · exact Or.inl rfl

theorem processPages_length (env : String → PageStep) :
    ∀ pages : List String,
      (processPages env pages).1.length + (processPages env pages).2.length
        = pages.length := by
  intro pages
  induction pages with
  | nil => rfl
  | cons u rest ih =>
    rw [processPages]
    cases env u <;> simp only [List.length_cons] <;> omega

theorem processPages_countUrl (env : String → PageStep) (u : String) :
    ∀ pages : List String,
      countUrlO (processPages env pages).1 u + countUrlF (processPages env pages).2 u
        = (pages.filter (fun x => decide (x = u))).length := by
  intro pages
  induction pages with
  | nil => rfl
  | cons w rest ih =>
    rw [processPages, List.filter_cons]
    cases env w with
    | ok c =>
      simp only []
      unfold countUrlO
      rw [List.filter_cons]
      by_cases hw : w = u
      · rw [if_pos (by simpa using hw), if_pos (by simpa using hw)]
        simp only [List.length_cons]
        unfold countUrlO at ih
        omega
      · rw [if_neg (by simpa using hw), if_neg (by simpa using hw)]
        exact ih
    | exn r =>
      simp only []
      unfold countUrlF
      rw [List.filter_cons]
      by_cases hw : w = u
      · rw [if_pos (by simpa using hw), if_pos (by simpa using hw)]
        simp only [List.length_cons]
        unfold countUrlF at ih
        omega
      · rw [if_neg (by simpa using hw), if_neg (by simpa using hw)]
        exact ih

theorem filter_eq_nil_of_not_mem {l : List String} {u : String} (h : u ∉ l) :
    l.filter (fun x => decide (x = u)) = [] := by
  induction l with
  | nil => rfl
  | cons x t ih =>
    rw [List.filter_cons, if_neg]
    · exact ih (fun hm => h (List.mem_cons_of_mem x hm))
    · simp only [decide_eq_true_eq]
      rintro rfl
      exact h (List.mem_cons_self x t)

theorem filter_length_one_of_nodup {l : List String} {u : String}
    (hn : l.Nodup) (hm : u ∈ l) :
    (l.filter (fun x => decide (x = u))).length = 1 := by
  induction l with
  | nil => cases hm
  | cons x t ih =>
    rw [List.filter_cons]
    rcases List.mem_cons.mp hm with h1 | h1
    · rw [if_pos (by simpa using h1.symm)]
      have hxnot : u ∉ t := h1 ▸ (List.nodup_cons.mp hn).1
      rw [filter_eq_nil_of_not_mem hxnot]
      rfl
    · have hxu : ¬(x = u) := by
        rintro rfl
        exact (List.nodup_cons.mp hn).1 h1
      rw [if_neg (by simpa using hxu)]
      exact ih (List.nodup_cons.mp hn).2 h1

/-- The candidate set of index.js country discovery contains no duplicates
(it is a JS `Set`). -/
theorem buildCandidates_nodup (listingHtml : Option String) (base listingPath : String) :
    (buildCandidates listingHtml base listingPath).Nodup := by
  unfold buildCandidates
  cases listingHtml with
  | some html =>
    apply nodup_addUnique
    unfold discoverLinks
    apply foldl_preserve_mem addUnique _ (fun b a _ hb => nodup_addUnique a hb)
    apply foldl_preserve_mem _ _ (fun b a _ hb => ?_) _ List.nodup_nil
    rcases normalizeAndCollect_cases a.href base b listingPath with h | h
    · rw [h]; exact hb
    · rw [h]; exact nodup_addUnique _ hb
  | none => exact nodup_addUnique _ (nodup_addUnique _ List.nodup_nil)

/-- The listing URL is always a member of the candidate set. -/
theorem mem_buildCandidates_listing (listingHtml : Option String)
    (base listingPath : String) :
    mkListingUrl base listingPath ∈ buildCandidates listingHtml base listingPath := by
  unfold buildCandidates
  cases listingHtml with
  | some html => exact mem_addUnique_self _ _
  | none => exact mem_addUnique_self _ _

/-! ## Canonicalization lemmas (claim C9 support) -/

theorem stripFragQuery_clean (s : String) : noFragQuery (stripFragQuery s) := by
  intro c hc
  have hc2 : c ∈ (s.toList.takeWhile (fun c => decide (c ≠ '#'))).takeWhile
      (fun c => decide (c ≠ '?')) := hc
  constructor
  · have h1 := pred_of_mem_takeWhile (mem_of_mem_takeWhile hc2)
    simpa using h1
  · have h2 := pred_of_mem_takeWhile hc2
    simpa using h2

/-- A set to which `addUnique` adds only canonicalized members stays
canonicalized. -/
theorem addUnique_clean {s : List String} {x : String}
    (hs : ∀ u ∈ s, noFragQuery u) (hx : noFragQuery x) :
    ∀ u ∈ addUnique s x, noFragQuery u := by
  intro u hu
  rcases eq_or_mem_of_mem_addUnique hu with h1 | h1
  · exact h1 ▸ hx
  · exact hs u h1

/-- Every member of the date-PLP set is canonicalized. -/
theorem extractDatePlpLinks_clean (html base : String) :
    ∀ u ∈ extractDatePlpLinksFromHtml html base, noFragQuery u := by
  unfold extractDatePlpLinksFromHtml
  split
  · simp
  · exact @foldl_preserve_mem _ _ (fun s => ∀ u ∈ s, noFragQuery u)
      (fun set cap => addUnique set (stripFragQuery (resolveHref (String.mk cap) base)))
      _ (fun b a _ hb => addUnique_clean hb (stripFragQuery_clean _)) _ (by simp)

/-- Every member of the discovered link set is canonicalized: both collection
passes insert only `stripFragQuery` images. -/
theorem discoverLinks_clean (html base listingPath : String) :
    ∀ u ∈ discoverLinks html base listingPath, noFragQuery u := by
  unfold discoverLinks
  refine @foldl_preserve_mem _ _ (fun s => ∀ u ∈ s, noFragQuery u)
    addUnique _
    (fun b a ha hb => addUnique_clean hb (extractDatePlpLinks_clean html base a ha)) _ ?_
  refine @foldl_preserve_mem AnchorRef _ (fun s => ∀ u ∈ s, noFragQuery u)
    (fun set a => normalizeAndCollect a.href base set listingPath)
    (extractAnchorsFromHtml html) (fun b a _ hb => ?_) [] (by simp)
  intro u hu
  simp only [] at hu
  rcases normalizeAndCollect_cases a.href base b listingPath with h | h
  · exact hb u (h ▸ hu)
  · rw [h] at hu
    exact addUnique_clean hb (stripFragQuery_clean _) u hu

/-! ## Positional lemmas for the text report (claim C10 support) -/

theorem getq_append_skip (pre rest : List String) (k : Nat) :
    (pre ++ rest).get? (pre.length + k) = rest.get? k := by
  rw [List.get?_append_right (Nat.le_add_right _ _)]
  congr 1
  omega

/-! ## Discovery retry trace (claim C2 support) -/

/-- Attempt records of the part_001 retry loop: at most `rem` attempts, the
`i`-th record (0-based) carries navigation timeout `60000 * (attempt + i)` and
a backoff of 0 (success) or `1000 * (attempt + i)` (failure). -/
theorem p1DiscoveryAux_trace (oracle : Nat → NavResult) :
    ∀ (rem attempt : Nat) (set : List String),
      (p1DiscoveryAux oracle attempt rem set).2.length ≤ rem ∧
      ∀ (i : Nat) (rec : DiscoveryAttempt),
        (p1DiscoveryAux oracle attempt rem set).2.get? i = some rec →
        rec.navTimeoutMs = 60000 * (attempt + i)
        ∧ (rec.backoffMs = 0 ∨ rec.backoffMs = 1000 * (attempt + i)) := by
  intro rem
  induction rem with
  | zero =>
    intro attempt set
    refine ⟨Nat.le_refl 0, fun i rec h => ?_⟩
    rw [p1DiscoveryAux] at h
    simp at h
  | succ rem ih =>
    intro attempt set
    rw [p1DiscoveryAux]
    cases oracle attempt with
    | ok html =>
      simp only []
      by_cases hcond : 1 < (p1DiscCollect html set).length
      · rw [if_pos hcond]
        refine ⟨by simp, fun i rec h => ?_⟩
        cases i with
        | zero =>
          simp only [List.get?_cons_zero, Option.some.injEq] at h
          subst h
          exact ⟨by simp, Or.inl rfl⟩
        | succ i2 => simp at h
      · rw [if_neg hcond]
        obtain ⟨ih1, ih2⟩ := ih (attempt + 1) (p1DiscCollect html set)
        refine ⟨by simpa using Nat.succ_le_succ ih1, fun i rec h => ?_⟩
        cases i with
        | zero =>
          simp only [List.get?_cons_zero, Option.some.injEq] at h
          subst h
          exact ⟨by simp, Or.inl rfl⟩
        | succ i2 =>
          simp only [List.get?_cons_succ] at h
          obtain ⟨hn, hbk⟩ := ih2 i2 rec h
          refine ⟨hn.trans (by omega), ?_⟩
          rcases hbk with hb | hb
          · exact Or.inl hb
          · exact Or.inr (hb.trans (by omega))
    | err =>
      simp only []
      obtain ⟨ih1, ih2⟩ := ih (attempt + 1) set
      refine ⟨by simpa using Nat.succ_le_succ ih1, fun i rec h => ?_⟩
      cases i with
      | zero =>
        simp only [List.get?_cons_zero, Option.some.injEq] at h
        subst h
        exact ⟨by simp, Or.inr (by simp)⟩
      | succ i2 =>
        simp only [List.get?_cons_succ] at h
        obtain ⟨hn, hbk⟩ := ih2 i2 rec h
        refine ⟨hn.trans (by omega), ?_⟩
        rcases hbk with hb | hb
        · exact Or.inl hb
        · exact Or.inr (hb.trans (by omega))

/-- In `pre ++ A ++ B ++ post` (left-associated, as `++` parses), every
element of `A` occurs at a position strictly before a position at which every
given element of `B` occurs. -/
theorem get_middle_lt (pre A B post : List String) {a b : String}
    (ha : a ∈ A) (hb : b ∈ B) :
    ∃ i j, i < j ∧ (pre ++ A ++ B ++ post).get? i = some a
      ∧ (pre ++ A ++ B ++ post).get? j = some b := by
  obtain ⟨⟨ia, hia⟩, hag⟩ := List.mem_iff_get.mp ha
  obtain ⟨⟨ib, hib⟩, hbg⟩ := List.mem_iff_get.mp hb
  refine ⟨pre.length + ia, pre.length + A.length + ib, by omega, ?_, ?_⟩
  · have h1 : pre.length + ia < (pre ++ A).length := by
      simp only [List.length_append]
      omega
    have h2 : pre.length + ia < (pre ++ A ++ B).length := by
      simp only [List.length_append]
      omega
    rw [List.get?_append h2, List.get?_append h1, getq_append_skip,
      List.get?_eq_get hia, hag]
  · have h3 : pre.length + A.length + ib < (pre ++ A ++ B).length := by
      simp only [List.length_append]
      omega
    have h4 : pre.length + A.length + ib = (pre ++ A).length + ib := by
      simp only [List.length_append]
    rw [List.get?_append h3, h4, getq_append_skip, List.get?_eq_get hib, hbg]

/-! ## Claim theorems -/

/-- C1 (counterexample): for the text `"9999 Aktionsartikel"` — a
number-keyword pairing normalizing to 9999, above the 5000 plausibility
ceiling — the count extractor of index.js returns 9999, not "not found", so
the values it accepts are not bounded by 5000. -/
theorem C1_counterexample :
    extractCountFromTextImproved "9999 Aktionsartikel" ["Aktionsartikel"]
      = some 9999 := by decide

/-- C1 (amended): index.js applies no plausibility ceiling in its extractor;
the bound lives in the part_002 iteration, whose per-page pipeline passes
every headline-extracted count through `sanity`, so every count that pipeline
accepts satisfies `0 ≤ v ≤ 5000`, and on the same over-ceiling text it
accepts nothing. -/
theorem C1_corrected :
    (∀ (text : String) (kws : List String) (v : Int),
        p2AcceptedCount text kws = some v → 0 ≤ v ∧ v ≤ 5000)
      ∧ p2AcceptedCount "9999 Aktionsartikel" ["Aktionsartikel"] = none := by
  constructor
  · intro text kws v h
    unfold p2AcceptedCount sanity at h
    cases hx : extractCountFromHeadingText text kws with
    | none => rw [hx] at h; exact absurd h (by simp)
    | some x =>
      rw [hx] at h
      simp only [] at h
      split at h
      · exact absurd h (by simp)
      · split at h
        · exact absurd h (by simp)
        · rename_i h1 h2
          cases h
          omega
  · decide

/-- C1 witness: the amended bound applied at a concrete accepted count. -/
theorem C1_corrected_witness : (0 : Int) ≤ 37 ∧ (37 : Int) ≤ 5000 :=
  C1_corrected.1 "Es wurden 37 Aktionsartikel gefunden" ["Aktionsartikel"] 37 (by decide)

/-- C2 (counterexample): in index.js, when the listing fetch yields no links
(`listingHtml = none`), country discovery performs zero rendering-retriever
invocations — there is no Playwright fallback, no 3-attempt retry — and the
candidate set is just the listing root. -/
theorem C2_counterexample :
    (discoverCandidatesWithRenders none "https://www.hofer.at" "/de/angebote").1
        = ["https://www.hofer.at/de/angebote"]
      ∧ (discoverCandidatesWithRenders none "https://www.hofer.at" "/de/angebote").2
        = 0 := by
  exact ⟨by decide, rfl⟩

/-- C2 (amended): the multi-country orchestrator of index.js never falls back
to the rendering retriever during discovery (the invocation count is
structurally zero for every fetch outcome); the escalating-timeout retry
exists only in the single-site part_001 iteration, whose Playwright discovery
runs at most 3 attempts, with navigation timeout `60000 * attempt` and a
linear `1000 * attempt` backoff on failed attempts. -/
theorem C2_corrected :
    (∀ (listingHtml : Option String) (base listingPath : String),
        (discoverCandidatesWithRenders listingHtml base listingPath).2 = 0)
      ∧ ∀ (oracle : Nat → NavResult) (set0 : List String),
          (p1PlaywrightDiscovery oracle set0).2.length ≤ 3
          ∧ ∀ (i : Nat) (rec : DiscoveryAttempt),
              (p1PlaywrightDiscovery oracle set0).2.get? i = some rec →
              rec.navTimeoutMs = 60000 * (i + 1)
              ∧ (rec.backoffMs = 0 ∨ rec.backoffMs = 1000 * (i + 1)) := by
  constructor
  · intro listingHtml base listingPath
    rfl
  · intro oracle set0
    unfold p1PlaywrightDiscovery
    split
    · obtain ⟨h1, h2⟩ := p1DiscoveryAux_trace oracle 3 1 set0
      refine ⟨h1, fun i rec h => ?_⟩
      obtain ⟨hn, hbk⟩ := h2 i rec h
      refine ⟨hn.trans (by omega), ?_⟩
      rcases hbk with hb | hb
      · exact Or.inl hb
      · exact Or.inr (hb.trans (by omega))
    · refine ⟨by simp, fun i rec h => ?_⟩
      simp at h

/-- C2 witness: the retry-policy properties applied to a concrete trace in
which every attempt fails. -/
theorem C2_corrected_witness :
    (DiscoveryAttempt.mk 120000 2000).navTimeoutMs = 60000 * (1 + 1)
      ∧ ((DiscoveryAttempt.mk 120000 2000).backoffMs = 0
        ∨ (DiscoveryAttempt.mk 120000 2000).backoffMs = 1000 * (1 + 1)) :=
  (C2_corrected.2 (fun _ => NavResult.err) []).2 1
    (DiscoveryAttempt.mk 120000 2000) (by decide)

/-- C3: every count the index.js extractor returns is nonnegative, hence
every per-page pipeline count is `unknown` or an integer ≥ 0 — even though
the number normalizer alone can return a negative integer. -/
theorem C3_count_nonneg :
    (∀ (text : String) (kws : List String) (v : Int),
        extractCountFromTextImproved text kws = some v → 0 ≤ v)
      ∧ (∀ (pw force : Bool) (io : PageEnv) (kws : List String) (v : Int),
          perPageCount pw force io kws = some v → 0 ≤ v)
      ∧ normalizeNumberString "-5" = some (-5) := by
  refine ⟨?_, ?_, by decide⟩
  · intro text kws v h
    exact extractCountFromTextImproved_nonneg text kws h
  · intro pw force io kws v h
    exact perPageCount_nonneg pw force io kws h

/-- C3 witness: nonnegativity applied at a concrete extraction. -/
theorem C3_count_nonneg_witness : (0 : Int) ≤ 37 :=
  C3_count_nonneg.1 "Es wurden 37 Aktionsartikel gefunden" ["Aktionsartikel"] 37 (by decide)

/-- C4: when the lightweight fetch returns markup from which the extractor
obtains a valid in-bound count, the per-page pipeline opens no rendering
session at all (fetch-first short-circuit). -/
theorem C4_fetch_first :
    ∀ (pw force : Bool) (io : PageEnv) (kws : List String) (html : String) (v : Int),
      io.fetched = some html →
      extractCountFromTextImproved html kws = some v →
      0 ≤ v → v ≤ 5000 →
      perPageRenderSessions pw force io kws = 0 := by
  intro pw force io kws html v hf he _ _
  unfold perPageRenderSessions
  rw [hf]
  have hb : (some html).bind (fun h => extractCountFromTextImproved h kws) = some v := he
  rw [hb]

/-- C4 witness: the short-circuit at a concrete fetched page. -/
theorem C4_fetch_first_witness :
    perPageRenderSessions true true
      (PageEnv.mk (some "Es wurden 37 Aktionsartikel gefunden") [] none none)
      ["Aktionsartikel"] = 0 :=
  C4_fetch_first true true
    (PageEnv.mk (some "Es wurden 37 Aktionsartikel gefunden") [] none none)
    ["Aktionsartikel"] "Es wurden 37 Aktionsartikel gefunden" 37 rfl (by decide)
    (by decide) (by decide)

/-- C5: for every country processed without a country-level error, the
listing root is a member of the candidate set, and every candidate URL
contributes exactly one entry to the country summary — a `plps` outcome or an
`unknowns` failure — with no candidate dropped. -/
theorem C5_candidate_outcomes :
    ∀ (listingHtml : Option String) (base listingPath : String)
      (env : String → PageStep),
      mkListingUrl base listingPath ∈ buildCandidates listingHtml base listingPath
      ∧ (processPages env (buildCandidates listingHtml base listingPath)).1.length
          + (processPages env (buildCandidates listingHtml base listingPath)).2.length
          = (buildCandidates listingHtml base listingPath).length
      ∧ ∀ u ∈ buildCandidates listingHtml base listingPath,
          countUrlO (processPages env (buildCandidates listingHtml base listingPath)).1 u
            + countUrlF (processPages env (buildCandidates listingHtml base listingPath)).2 u
            = 1 := by
  intro listingHtml base listingPath env
  refine ⟨mem_buildCandidates_listing _ _ _, processPages_length env _, ?_⟩
  intro u hu
  rw [processPages_countUrl env u]
  exact filter_length_one_of_nodup (buildCandidates_nodup listingHtml base listingPath) hu

/-- C5 witness: with a failed listing fetch and an environment that succeeds
on every page, the AT listing root is the unique candidate and gets exactly
one outcome. -/
theorem C5_candidate_outcomes_witness :
    "https://www.hofer.at/de/angebote"
        ∈ buildCandidates none "https://www.hofer.at" "/de/angebote"
      ∧ countUrlO (processPages (fun _ => PageStep.ok (some 3))
            (buildCandidates none "https://www.hofer.at" "/de/angebote")).1
            "https://www.hofer.at/de/angebote"
          + countUrlF (processPages (fun _ => PageStep.ok (some 3))
              (buildCandidates none "https://www.hofer.at" "/de/angebote")).2
              "https://www.hofer.at/de/angebote"
          = 1 := by
  have h := C5_candidate_outcomes none "https://www.hofer.at" "/de/angebote"
    (fun _ => PageStep.ok (some 3))
  exact ⟨by decide, h.2.2 "https://www.hofer.at/de/angebote" (by decide)⟩

/-- C6: every rendering invocation that acquired a browser session tears it
down exactly once before returning, on every exit path including
mid-navigation and evaluation throws; for `N` launched invocations the number
of teardown calls is `N`, and the selector-extraction variant obeys the same
discipline. -/
theorem C6_render_teardown :
    (∀ runs : List RenderRun, renderTeardowns runs = renderLaunchCount runs)
      ∧ (∀ runs : List RenderRun, (∀ r ∈ runs, renderLaunched r = true) →
          renderTeardowns runs = runs.length)
      ∧ (∀ s : SelectorsRun, (extractCountUsingPlaywrightSelectorsRun s).2
          = if s = SelectorsRun.launchFail then 0 else 1) := by
  have hcons : ∀ (r : RenderRun) (t : List RenderRun),
      renderTeardowns (r :: t) = (renderPageTextWithPlaywrightRun r).2 + renderTeardowns t := by
    intro r t
    unfold renderTeardowns
    rw [List.map_cons, List.sum_cons]
  refine ⟨?_, ?_, ?_⟩
  · intro runs
    induction runs with
    | nil => rfl
    | cons r t ih =>
      have hlc : renderLaunchCount (r :: t)
          = (if renderLaunched r then 1 else 0) + renderLaunchCount t := by
        unfold renderLaunchCount
        rw [List.filter_cons]
        split
        · rw [List.length_cons]
          omega
        · omega
      rw [hcons, hlc, ih]
      cases r <;> simp [renderPageTextWithPlaywrightRun, renderLaunched]
  · intro runs hall
    induction runs with
    | nil => rfl
    | cons r t ih =>
      have hr := hall r (List.mem_cons_self r t)
      have ht := ih (fun x hx => hall x (List.mem_cons_of_mem r hx))
      rw [hcons, ht, List.length_cons]
      cases r with
      | launchFail => exact absurd hr (by simp [renderLaunched])
      | setupFail => simp [renderPageTextWithPlaywrightRun]; omega
      | evalFail g => simp [renderPageTextWithPlaywrightRun]; omega
      | success g t2 => simp [renderPageTextWithPlaywrightRun]; omega
  · intro s
    cases s <;> rfl

/-- C6 witness: three launched invocations — one success, one evaluation
throw, one setup throw — produce exactly three teardowns. -/
theorem C6_render_teardown_witness :
    renderTeardowns
      [RenderRun.success true "body text", RenderRun.evalFail false,
       RenderRun.setupFail] = 3 :=
  C6_render_teardown.2.1
    [RenderRun.success true "body text", RenderRun.evalFail false,
     RenderRun.setupFail] (by decide)

/-- C7: when a non-empty shared secret is configured, a request whose secret
header is absent or different is answered with the unauthorized response and
zero network operations; without a configured secret every request runs the
batch. -/
theorem C7_secret_gate :
    (∀ (α : Type) (batch : α × Nat) (s : String) (header : Option String),
        s ≠ "" →
        (header = none ∨ ∃ hv, header = some hv ∧ hv ≠ s) →
        checkHoferRun (some s) header batch = (CheckResponse.unauthorized, 0))
      ∧ (∀ (α : Type) (batch : α × Nat) (header : Option String),
          checkHoferRun none header batch = (CheckResponse.report batch.1, batch.2)) := by
  constructor
  · intro α batch s header hs hh
    have hadm : secretGateAdmits (some s) header = false := by
      rcases hh with rfl | ⟨hv, rfl, hne⟩
      · simp [secretGateAdmits, hs]
      · by_cases hempty : hv = ""
        · simp [secretGateAdmits, hs, hempty]
        · simp [secretGateAdmits, hs, hempty, hne]
    unfold checkHoferRun
    rw [hadm]
    rfl
  · intro α batch header
    rfl

/-- C7 witness: a concrete gated rejection. -/
theorem C7_secret_gate_witness :
    checkHoferRun (some "tok-1") none ((7 : Nat), 5)
      = (CheckResponse.unauthorized, 0) :=
  C7_secret_gate.1 Nat ((7 : Nat), 5) "tok-1" none (by decide) (Or.inl rfl)

/-- C8: the number normalizer maps every digit sequence grouped in threes
with separator `.`, `,` or space to the value of its digits (so `"1.234"`,
`"1,234"` and `"1 234"` all yield 1234); a bare `"42"` yields 42 and `"abc"`
yields "not a number". -/
theorem C8_normalizer :
    (∀ (lead : List Char) (groups : List (List Char)) (sep : Char),
        lead ≠ [] → (∀ c ∈ lead, c.isDigit = true) →
        (sep = '.' ∨ sep = ',' ∨ sep = ' ') →
        (∀ g ∈ groups, g.length = 3 ∧ ∀ c ∈ g, c.isDigit = true) →
        normalizeNumberString (groupedNumberString lead sep groups)
          = some (Int.ofNat (digitsToNat (lead ++ groups.flatten))))
      ∧ normalizeNumberString "42" = some 42
      ∧ normalizeNumberString "abc" = none := by
  refine ⟨?_, by decide, by decide⟩
  intro lead groups sep hne hld hsep hg
  have hall : ∀ c ∈ lead ++ (groups.map (fun g => sep :: g)).flatten,
      c.isDigit = true ∨ c = sep := by
    intro c hc
    rcases List.mem_append.mp hc with h | h
    · exact Or.inl (hld c h)
    · obtain ⟨piece, hp, hcp⟩ := List.mem_flatten.mp h
      obtain ⟨g, hgm, rfl⟩ := List.mem_map.mp hp
      rcases List.mem_cons.mp hcp with h1 | h1
      · exact Or.inr h1
      · exact Or.inl ((hg g hgm).2 c h1)
  have hLne : lead ++ (groups.map (fun g => sep :: g)).flatten ≠ [] := by
    cases lead with
    | nil => exact absurd rfl hne
    | cons c t => simp
  show normalizeNumChars (lead ++ (groups.map (fun g => sep :: g)).flatten) = _
  unfold normalizeNumChars
  simp only []
  rw [if_neg hLne]
  have hmap : (lead ++ (groups.map (fun g => sep :: g)).flatten).map nbspToSpace2
      = lead ++ (groups.map (fun g => sep :: g)).flatten := by
    apply map_eq_self_of
    intro c hc
    rcases hall c hc with h | h
    · unfold nbspToSpace2
      rw [if_neg]
      rintro (rfl | rfl) <;> revert h <;> decide
    · subst h
      unfold nbspToSpace2
      rw [if_neg]
      rcases hsep with h | h | h <;> subst h <;> decide
  rw [hmap]
  obtain ⟨ds, d, rfl⟩ : ∃ ds d, lead = ds ++ [d] := by
    rcases List.eq_nil_or_concat lead with h | ⟨ds, d, h⟩
    · exact absurd h hne
    · rw [List.concat_eq_append] at h
      exact ⟨ds, d, h⟩
  have hd : d.isDigit = true := hld d (List.mem_append_right ds (List.mem_singleton_self d))
  have hds : ∀ c ∈ ds, c.isDigit = true :=
    fun c hc => hld c (List.mem_append_left [d] hc)
  have hshape : (ds ++ [d]) ++ (groups.map (fun g => sep :: g)).flatten
      = ds ++ d :: (groups.map (fun g => sep :: g)).flatten := by simp
  rw [hshape, rtAux_digit_run ds d hd hds none _,
    rtAux_groups groups sep d hd hsep hg]
  have hdig2 : ∀ c ∈ ds ++ d :: groups.flatten, c.isDigit = true := by
    intro c hc
    rcases List.mem_append.mp hc with h | h
    · exact hds c h
    · rcases List.mem_cons.mp h with h1 | h1
      · exact h1 ▸ hd
      · obtain ⟨g, hgm, hcg⟩ := List.mem_flatten.mp h1
        exact (hg g hgm).2 c hcg
  rw [filter_eq_self_of (fun c hc => by
    unfold keepDigitMinus
    rw [hdig2 c hc]
    rfl)]
  rw [if_neg (by simp)]
  cases hd0 : ds ++ d :: groups.flatten with
  | nil => exact absurd hd0 (by simp)
  | cons c0 t0 =>
    have hc0 : c0.isDigit = true := hdig2 c0 (hd0 ▸ List.mem_cons_self c0 t0)
    rw [jsParseInt_cons, if_neg (digit_ne_minus hc0)]
    unfold leadDigitsVal
    have htk : (c0 :: t0).takeWhile Char.isDigit = c0 :: t0 :=
      takeWhile_eq_self_of (fun c hc => hdig2 c (hd0 ▸ hc))
    rw [htk]
    have hL : (ds ++ [d]) ++ groups.flatten = c0 :: t0 := by
      rw [← hd0]
      simp
    rw [hL]
    rfl

/-- C8 witness: the grouped-digits law applied at `1` `.` `234`. -/
theorem C8_normalizer_witness :
    normalizeNumberString (groupedNumberString ['1'] '.' [['2', '3', '4']])
      = some (Int.ofNat (digitsToNat (['1'] ++ [['2', '3', '4']].flatten))) :=
  C8_normalizer.1 ['1'] [['2', '3', '4']] '.' (by decide) (by decide)
    (Or.inl rfl) (by decide)

/-- C9 (counterexample): a reference whose href merely starts with the four
characters `http` is kept verbatim by the discoverer, so for the markup
`<a href="http-x/d.08-12-2025.html">y</a>` the discovered set's only member
is the unresolved relative string — it does not start with the site root and
carries no scheme, refuting "every discovered reference is resolved to an
absolute URL against the site root". -/
theorem C9_counterexample :
    discoverLinks "<a href=\"http-x/d.08-12-2025.html\">y</a>"
        "https://example.test" "/de/angebote"
        = ["http-x/d.08-12-2025.html"]
      ∧ litStart "https://example.test".toList "http-x/d.08-12-2025.html".toList
        = false
      ∧ containsSub "http-x/d.08-12-2025.html".toList "://".toList = false := by
  refine ⟨by decide, by decide, by decide⟩

/-- C9 (amended): for the example markup the discovered set is exactly the
root-resolved canonical URL; every discovered reference has fragment and
query stripped; and a root-relative reference is resolved against the site
origin — but a reference starting with `http` is taken verbatim, so not every
member is absolute (see the counterexample). -/
theorem C9_corrected :
    discoverLinks "<a href=\"/d.08-12-2025.html\">x</a>" "https://example.test"
        "/de/angebote"
        = ["https://example.test/d.08-12-2025.html"]
      ∧ (∀ (html base listingPath : String),
          ∀ u ∈ discoverLinks html base listingPath, noFragQuery u)
      ∧ (∀ href base : String, litStart "/".toList href.toList = true →
          newUrlToString href base = urlOrigin base ++ href) := by
  refine ⟨by decide, fun html base lp => discoverLinks_clean html base lp, ?_⟩
  intro href base h
  unfold newUrlToString
  rw [if_pos h]

/-- C9 witness: canonicalization applied to the member discovered from the
example markup. -/
theorem C9_corrected_witness :
    noFragQuery "https://example.test/d.08-12-2025.html" :=
  C9_corrected.2.1 "<a href=\"/d.08-12-2025.html\">x</a>" "https://example.test"
    "/de/angebote" "https://example.test/d.08-12-2025.html" (by decide)

/-- C10: in the text report's country block, the line of every date-page
entry appears at a position strictly before the line of every non-date-page
entry, whatever the order of the `plps` list. -/
theorem C10_date_lines_first :
    ∀ (code : String) (n : Nat) (plps : List PlpEntry) (p q : PlpEntry),
      p ∈ plps → q ∈ plps → isDateUrl p.url = true → isDateUrl q.url = false →
      ∃ i j, i < j
        ∧ (renderCountryBlock code n plps).get? i = some (plpLine p)
        ∧ (renderCountryBlock code n plps).get? j = some (plpLine q) := by
  intro code n plps p q hp hq hpd hqd
  have hpA : plpLine p ∈ (plps.filter (fun e => isDateUrl e.url)).map plpLine :=
    List.mem_map_of_mem plpLine (List.mem_filter.mpr ⟨hp, by simpa using hpd⟩)
  have hqB : plpLine q ∈ (plps.filter (fun e => !isDateUrl e.url)).map plpLine :=
    List.mem_map_of_mem plpLine (List.mem_filter.mpr ⟨hq, by simp [hqd]⟩)
  exact get_middle_lt [code, "Date PLPs found - " ++ toString n]
    ((plps.filter (fun e => isDateUrl e.url)).map plpLine)
    ((plps.filter (fun e => !isDateUrl e.url)).map plpLine) [""] hpA hqB

/-- C10 witness: with the non-date page listed first, its report line still
comes after the date page's line. -/
theorem C10_date_lines_first_witness :
    ∃ i j, i < j
      ∧ (renderCountryBlock "AT" 1
          [PlpEntry.mk "https://www.hofer.at/de/angebote" (some 2),
           PlpEntry.mk "https://www.hofer.at/d.08-12-2025.html" (some 5)]).get? i
        = some (plpLine (PlpEntry.mk "https://www.hofer.at/d.08-12-2025.html" (some 5)))
      ∧ (renderCountryBlock "AT" 1
          [PlpEntry.mk "https://www.hofer.at/de/angebote" (some 2),
           PlpEntry.mk "https://www.hofer.at/d.08-12-2025.html" (some 5)]).get? j
        = some (plpLine (PlpEntry.mk "https://www.hofer.at/de/angebote" (some 2))) :=
  C10_date_lines_first "AT" 1
    [PlpEntry.mk "https://www.hofer.at/de/angebote" (some 2),
     PlpEntry.mk "https://www.hofer.at/d.08-12-2025.html" (some 5)]
    (PlpEntry.mk "https://www.hofer.at/d.08-12-2025.html" (some 5))
    (PlpEntry.mk "https://www.hofer.at/de/angebote" (some 2))
    (by decide) (by decide) (by decide) (by decide)

end Hofer
